import Mathlib

/-!
Verification development for the catalog query/update engine of the
express-practical-project repository (movie catalog REST API).

Shallow embedding of:
  - the data model (prisma/migrations: movies, images, tags, movie_tags),
  - `MovieRepository` and `TagRepository` (src/repositories),
  - `MovieService` (src/services/movie.service.ts),
  - `FileUtil` (src/utils/file.util.ts), with on-disk storage modelled as the
    list of absolute file paths currently present.

The database is modelled as lists of rows in insertion order; `SERIAL` ids are
modelled by `nextMovieId` / `nextImageId` counters, and row timestamps by a
logical clock `now` that is bumped once per write operation (all rows written
by one operation share a timestamp, as they do under one PostgreSQL
transaction's `CURRENT_TIMESTAMP`).

JavaScript `undefined` is modelled as `Option.none`; JS truthiness of numbers
(`x || d`) and strings (`if (s)`) is modelled explicitly where the source
relies on it.
-/

namespace CatalogSpec

/-! ## JS-style helpers -/

/-- `o || d` for JS numbers: `none` (undefined) and `0` are falsy. -/
def jsOrInt (o : Option Int) (d : Int) : Int :=
  match o with
  | none => d
  | some v => if v = 0 then d else v

/-- Lower-cased character list of a string (ASCII case fold, models
`mode: 'insensitive'` for the data in scope). -/
def lcChars (s : String) : List Char :=
  s.data.map Char.toLower

/-- `needle` occurs at the head of `hay`. -/
def leadsWith : List Char → List Char → Bool
  | [], _ => true
  | _ :: _, [] => false
  | a :: as, b :: bs => a == b && leadsWith as bs

/-- `needle` occurs somewhere in `hay`. -/
def subOccurs (needle : List Char) : List Char → Bool
  | [] => needle.isEmpty
  | c :: rest => leadsWith needle (c :: rest) || subOccurs needle rest

/-- Case-insensitive substring test: Prisma `contains` with
`mode: 'insensitive'`. -/
def strContainsCI (hay needle : String) : Bool :=
  subOccurs (lcChars needle) (lcChars hay)

/-! ## Data model (prisma/migrations/20260221120625_add_movie_models) -/

/-- Row of the `movies` table.  The source column `type` is a Lean keyword and
is embedded as `mtype`. -/
structure Movie where
  id : Nat
  title : String
  mtype : String
  rating : Option Rat
  releaseYear : Option Int
  comment : Option String
  createdAt : Nat
  updatedAt : Nat
deriving Repr, DecidableEq

/-- Row of the `images` table. -/
structure Image where
  id : Nat
  movieId : Nat
  path : String
  isCover : Bool
  createdAt : Nat
deriving Repr, DecidableEq

/-- Row of the `tags` table. -/
structure MovieTagName where
  id : Nat
  name : String
deriving Repr, DecidableEq

/-- Row of the `movie_tags` join table (composite key movieId, tagId). -/
structure MovieTag where
  movieId : Nat
  tagId : Nat
deriving Repr, DecidableEq

/-- The relational state: the four tables, the id sequences, and the logical
clock used for `createdAt` timestamps. -/
structure Db where
  movies : List Movie
  images : List Image
  tags : List MovieTagName
  movieTags : List MovieTag
  nextMovieId : Nat
  nextImageId : Nat
  now : Nat
deriving Repr, DecidableEq

def emptyDb : Db :=
  { movies := [], images := [], tags := [], movieTags := []
    nextMovieId := 1, nextImageId := 1, now := 0 }

/-- All images belonging to one movie, in insertion (= creation) order. -/
def Db.entryImages (db : Db) (mid : Nat) : List Image :=
  db.images.filter (fun im => im.movieId == mid)

/-- All tag links of one movie, in insertion order. -/
def Db.entryLinks (db : Db) (mid : Nat) : List MovieTag :=
  db.movieTags.filter (fun l => l.movieId == mid)

/-- `prisma.movie.findUnique (where: id)` on the movies table. -/
def Db.findMovie (db : Db) (id : Nat) : Option Movie :=
  db.movies.find? (fun m => m.id == id)

def coversOf (l : List Image) : List Image :=
  l.filter (fun im => im.isCover)

/-- Number of cover-flagged images of one movie. -/
def Db.coverCount (db : Db) (mid : Nat) : Nat :=
  (coversOf (db.entryImages mid)).length

/-- Errors raised by the service layer (src/types): `ValidationError`,
`NotFoundError`, and an unclassified storage failure from the relational
engine. -/
inductive ServiceError where
  | validation (msg : String)
  | notFound (msg : String)
  | dbError
deriving Repr, DecidableEq

/-- Is an operation result a `ValidationError`? -/
def errIsValidation : Except ServiceError α → Bool
  | .error (.validation _) => true
  | _ => false

/-! ## Files and storage (src/utils/file.util.ts, multer config) -/

/-- A received multipart file descriptor: multer has already written the file
and reports its absolute path. -/
structure UploadedFile where
  path : String
deriving Repr, DecidableEq

/-- On-disk storage: the set of absolute paths currently present, as a list. -/
abbrev Storage := List String

/-- `FileUtil.deleteFile`: best-effort unlink; a missing path is a no-op. -/
def FileUtil.deleteFile (s : Storage) (p : String) : Storage :=
  s.filter (fun q => q != p)

/-- `FileUtil.deleteFiles`: delete each path in turn. -/
def FileUtil.deleteFiles (s : Storage) (ps : List String) : Storage :=
  ps.foldl FileUtil.deleteFile s

/-- Replace every backslash by a forward slash (`path.replace(/\\/g, '/')`). -/
def normSlashes (l : List Char) : List Char :=
  l.map (fun c => if c == '\\' then '/' else c)

/-- The characters after the first occurrence of `pat` (splitting semantics:
`none` when `pat` does not occur). -/
def afterSeg (pat : List Char) : List Char → Option (List Char)
  | [] => if pat.isEmpty then some [] else none
  | c :: rest =>
      if leadsWith pat (c :: rest) then some ((c :: rest).drop pat.length)
      else afterSeg pat rest

/-- The characters before the next occurrence of `pat` (the end of the second
chunk of `split(pat)`). -/
def upToSeg (pat : List Char) : List Char → List Char
  | [] => []
  | c :: rest => if leadsWith pat (c :: rest) then [] else c :: upToSeg pat rest

/-- `FileUtil.getRelativePath`: `file.path.replace(/\\/g,
'/').split('uploads/')[1]` — the chunk of the slash-normalised path between
the first `uploads/` segment and the next (an absent chunk, JS `undefined`
in a string position, is modelled as the empty string). -/
def FileUtil.getRelativePath (f : UploadedFile) : String :=
  match afterSeg ("uploads/".toList) (normSlashes f.path.toList) with
  | some rest => String.mk (upToSeg ("uploads/".toList) rest)
  | none => ""

/-- `FileUtil.getAbsolutePath`: join the relative path back under the
uploads root (the process working directory is modelled as the root). -/
def FileUtil.getAbsolutePath (rel : String) : String :=
  "uploads/" ++ rel

/-- Combined service-visible state: database plus file storage. -/
structure St where
  db : Db
  storage : Storage
deriving Repr, DecidableEq

def emptySt : St :=
  { db := emptyDb, storage := [] }

/-! ## TagRepository (src/repositories/tag.repository.ts) -/

/-- `TagRepository.findByIds`: `prisma.tag.findMany (where id in ids)`. -/
def TagRepository.findByIds (db : Db) (ids : List Nat) : List MovieTagName :=
  db.tags.filter (fun t => ids.contains t.id)

/-! ## MovieRepository (src/repositories/movie.repository.ts) -/

/-- Image payload handed from the service to the repository. -/
structure ImageInput where
  path : String
  isCover : Bool
deriving Repr, DecidableEq

/-- Repository-level create payload. -/
structure CreateData where
  title : String
  mtype : String
  rating : Option Rat
  releaseYear : Option Int
  comment : Option String
  images : List ImageInput
  tagIds : List Nat
deriving Repr, DecidableEq

/-- Turn the image payloads into `images` rows, assigning consecutive ids
starting at `nid`; all rows share the transaction timestamp `now`. -/
def mkImageRows (mid now : Nat) : Nat → List ImageInput → List Image
  | _, [] => []
  | nid, inp :: rest =>
      { id := nid, movieId := mid, path := inp.path, isCover := inp.isCover
        createdAt := now } :: mkImageRows mid now (nid + 1) rest

/-- `MovieRepository.create`: one atomic nested insert of the movie row, its
image rows and its tag-link rows (Prisma wraps the nested create in a
transaction).  `repoFail` injects a storage-layer failure of that insert; by
atomicity a failed insert persists nothing. -/
def MovieRepository.create (db : Db) (d : CreateData) (repoFail : Bool) :
    Except ServiceError (Db × Movie) :=
  if repoFail then
    .error .dbError
  else
    let m : Movie :=
      { id := db.nextMovieId, title := d.title, mtype := d.mtype
        rating := d.rating, releaseYear := d.releaseYear, comment := d.comment
        createdAt := db.now, updatedAt := db.now }
    let rows := mkImageRows db.nextMovieId db.now db.nextImageId d.images
    let links := d.tagIds.map (fun tid => { movieId := db.nextMovieId, tagId := tid : MovieTag })
    .ok ({ movies := db.movies ++ [m]
           images := db.images ++ rows
           tags := db.tags
           movieTags := db.movieTags ++ links
           nextMovieId := db.nextMovieId + 1
           nextImageId := db.nextImageId + d.images.length
           now := db.now + 1 }, m)

/-- Service-level partial update payload (`undefined` = `none`). -/
structure UpdateInput where
  title : Option String
  mtype : Option String
  rating : Option Rat
  releaseYear : Option Int
  comment : Option String
  tagIds : Option (List Nat)
deriving Repr, DecidableEq

def UpdateInput.empty : UpdateInput :=
  { title := none, mtype := none, rating := none, releaseYear := none
    comment := none, tagIds := none }

/-- Prisma `movie.update` data object: a supplied (non-`undefined`) field is
written, an omitted field is left untouched; `updatedAt` is auto-touched. -/
def applyUpdate (m : Movie) (d : UpdateInput) (now : Nat) : Movie :=
  { m with
    title := d.title.getD m.title
    mtype := d.mtype.getD m.mtype
    rating := match d.rating with | some r => some r | none => m.rating
    releaseYear := match d.releaseYear with | some y => some y | none => m.releaseYear
    comment := match d.comment with | some c => some c | none => m.comment
    updatedAt := now }

/-- `MovieRepository.update`: when `tagIds` is `undefined`, a plain field
update; when supplied, one transaction that deletes all existing `movie_tags`
rows of the movie and inserts the new set alongside the field update. -/
def MovieRepository.update (db : Db) (id : Nat) (d : UpdateInput) : Db :=
  let movies2 := db.movies.map (fun m => if m.id == id then applyUpdate m d db.now else m)
  match d.tagIds with
  | none => { db with movies := movies2, now := db.now + 1 }
  | some tids =>
      { db with
        movies := movies2
        movieTags := db.movieTags.filter (fun l => l.movieId != id)
          ++ tids.map (fun tid => { movieId := id, tagId := tid : MovieTag })
        now := db.now + 1 }

/-- `MovieRepository.delete`: delete the movie row; the `ON DELETE CASCADE`
constraints remove its images and tag links. -/
def MovieRepository.delete (db : Db) (id : Nat) : Db :=
  { db with
    movies := db.movies.filter (fun m => m.id != id)
    images := db.images.filter (fun im => im.movieId != id)
    movieTags := db.movieTags.filter (fun l => l.movieId != id)
    now := db.now + 1 }

/-- `MovieRepository.addImages`: if any incoming image is flagged as cover,
first clear `isCover` on every existing image of the movie, then insert the
new rows. -/
def MovieRepository.addImages (db : Db) (mid : Nat) (images : List ImageInput) : Db :=
  let cleared :=
    if images.any (fun img => img.isCover) then
      db.images.map (fun im => if im.movieId == mid then { im with isCover := false } else im)
    else
      db.images
  { db with
    images := cleared ++ mkImageRows mid db.now db.nextImageId images
    nextImageId := db.nextImageId + images.length
    now := db.now + 1 }

/-- `MovieRepository.deleteImage`: delete one image row by id. -/
def MovieRepository.deleteImage (db : Db) (imageId : Nat) : Db :=
  { db with images := db.images.filter (fun im => im.id != imageId), now := db.now + 1 }

/-- `MovieRepository.findImageById`: `image.findFirst (where id and movieId)`,
i.e. ownership is part of the lookup. -/
def MovieRepository.findImageById (db : Db) (imageId mid : Nat) : Option Image :=
  db.images.find? (fun im => im.id == imageId && im.movieId == mid)

/-- `MovieRepository.setCoverImage`: one transaction that clears `isCover` on
every image of the movie, then sets it on the image with the given id. -/
def MovieRepository.setCoverImage (db : Db) (mid imageId : Nat) : Db :=
  let cleared := db.images.map (fun im => if im.movieId == mid then { im with isCover := false } else im)
  { db with
    images := cleared.map (fun im => if im.id == imageId then { im with isCover := true } else im)
    now := db.now + 1 }

/-- Leftmost image with minimal `createdAt`. -/
def minByCreatedAt : List Image → Option Image
  | [] => none
  | i :: rest =>
      match minByCreatedAt rest with
      | none => some i
      | some j => if i.createdAt ≤ j.createdAt then some i else some j

/-- `MovieRepository.getFirstImage`: `image.findFirst (where movieId, orderBy
createdAt asc)` — the chronologically first image of the movie (leftmost in
insertion order among equal timestamps). -/
def MovieRepository.getFirstImage (db : Db) (mid : Nat) : Option Image :=
  minByCreatedAt (db.entryImages mid)

/-! ## Response projections (MovieService.formatMovieResponse / ...ListItem) -/

structure TagOut where
  id : Nat
  name : String
deriving Repr, DecidableEq

structure ImageOut where
  id : Nat
  path : String
  isCover : Bool
deriving Repr, DecidableEq

/-- Detail projection returned by create/update/findById. -/
structure MovieDetail where
  id : Nat
  title : String
  mtype : String
  rating : Option Rat
  releaseYear : Option Int
  comment : Option String
  images : List ImageOut
  tags : List TagOut
  createdAt : Nat
  updatedAt : Nat
deriving Repr, DecidableEq

structure CoverOut where
  id : Nat
  path : String
deriving Repr, DecidableEq

/-- List projection returned by findMany (cover image and tags only). -/
structure MovieListItem where
  id : Nat
  title : String
  mtype : String
  rating : Option Rat
  releaseYear : Option Int
  coverImage : Option CoverOut
  tags : List TagOut
  createdAt : Nat
deriving Repr, DecidableEq

/-- `movieTags: include tag` — each link joined with its tag row (the foreign
key guarantees the tag exists; a dangling link would simply drop out). -/
def resolvedTags (db : Db) (mid : Nat) : List TagOut :=
  (db.entryLinks mid).filterMap
    (fun l => (db.tags.find? (fun t => t.id == l.tagId)).map
      (fun t => { id := t.id, name := t.name }))

/-- Image list of a detail response when the repository call used
`include: { images: true }` (create/update): plain insertion order. -/
def detailImagesPlain (db : Db) (mid : Nat) : List ImageOut :=
  (db.entryImages mid).map (fun im => { id := im.id, path := im.path, isCover := im.isCover })

/-- Image list of the findById detail response: the repository orders with
`orderBy: { isCover: 'desc' }`, i.e. a stable partition putting the
cover-flagged images first. -/
def detailImagesCoverFirst (db : Db) (mid : Nat) : List ImageOut :=
  ((coversOf (db.entryImages mid))
    ++ (db.entryImages mid).filter (fun im => !im.isCover)).map
    (fun im => { id := im.id, path := im.path, isCover := im.isCover })

/-- `formatMovieResponse` over a movie row found in `db` (image order as per
`include images: true`). -/
def formatMovieResponse (db : Db) (m : Movie) : MovieDetail :=
  { id := m.id, title := m.title, mtype := m.mtype, rating := m.rating
    releaseYear := m.releaseYear, comment := m.comment
    images := detailImagesPlain db m.id
    tags := resolvedTags db m.id
    createdAt := m.createdAt, updatedAt := m.updatedAt }

/-- `formatMovieResponse` for findById, whose repository query orders images
cover-first. -/
def formatMovieResponseCoverFirst (db : Db) (m : Movie) : MovieDetail :=
  { id := m.id, title := m.title, mtype := m.mtype, rating := m.rating
    releaseYear := m.releaseYear, comment := m.comment
    images := detailImagesCoverFirst db m.id
    tags := resolvedTags db m.id
    createdAt := m.createdAt, updatedAt := m.updatedAt }

/-- `formatMovieListItem`: the repository list query pre-filters images to
`where isCover: true`, and the service then takes `images.find(isCover)`,
i.e. the first cover-flagged image of the movie. -/
def formatMovieListItem (db : Db) (m : Movie) : MovieListItem :=
  { id := m.id, title := m.title, mtype := m.mtype, rating := m.rating
    releaseYear := m.releaseYear
    coverImage := ((db.entryImages m.id).find? (fun im => im.isCover)).map
      (fun im => { id := im.id, path := im.path })
    tags := resolvedTags db m.id
    createdAt := m.createdAt }

/-! ## MovieService (src/services/movie.service.ts) -/

def validTypes : List String := ["movie", "tv", "anime", "anime_movie"]

/-- Service-level create input (multipart body after controller parsing). -/
structure CreateInput where
  title : String
  mtype : String
  rating : Option Rat
  releaseYear : Option Int
  comment : Option String
  tagIds : Option (List Nat)
  files : List UploadedFile
  coverIndex : Option Int
deriving Repr, DecidableEq

/-- `data.files.forEach((file, index) => images.push({ path, isCover: index
=== coverIndex }))`, with running index `i`. -/
def imagesWithCover (ci : Int) : Nat → List UploadedFile → List ImageInput
  | _, [] => []
  | i, f :: fs =>
      { path := FileUtil.getRelativePath f, isCover := ((i : Int) == ci) }
        :: imagesWithCover ci (i + 1) fs

/-- `files.map((file, index) => ({ path, isCover: setCover && index === 0 }))`. -/
def imagesForAdd (setCover : Bool) : Nat → List UploadedFile → List ImageInput
  | _, [] => []
  | i, f :: fs =>
      { path := FileUtil.getRelativePath f, isCover := setCover && i == 0 }
        :: imagesForAdd setCover (i + 1) fs

/-- The image payload list a create call builds (`const images = []; if
(data.files && data.files.length > 0) { ... forEach ... }`). -/
def createImages (d : CreateInput) : List ImageInput :=
  if d.files.isEmpty then [] else imagesWithCover (d.coverIndex.getD 0) 0 d.files

/-- `MovieService.create`.  Returns the operation result together with the
state after the call (validation failures leave the state untouched; a failed
repository insert leaves the database untouched but deletes this request's
files from storage before the error is re-raised). -/
def MovieService.create (st : St) (d : CreateInput) (repoFail : Bool) :
    Except ServiceError MovieDetail × St :=
  if !(validTypes.contains d.mtype) then
    (.error (.validation ("无效的影片类型: " ++ d.mtype)), st)
  else if (match d.rating with | some r => decide (r < 0 ∨ 10 < r) | none => false) then
    (.error (.validation "评分必须在 0-10 之间"), st)
  else if (match d.tagIds with
           | some ids => !ids.isEmpty
              && (TagRepository.findByIds st.db ids).length != ids.length
           | none => false) then
    (.error (.validation "部分标签不存在"), st)
  else
    match MovieRepository.create st.db
        { title := d.title, mtype := d.mtype, rating := d.rating
          releaseYear := d.releaseYear, comment := d.comment
          images := createImages d, tagIds := d.tagIds.getD [] } repoFail with
    | .ok (db2, m) => (.ok (formatMovieResponse db2 m), { st with db := db2 })
    | .error e =>
        if d.files.isEmpty then (.error e, st)
        else (.error e, { st with storage := FileUtil.deleteFiles st.storage (d.files.map (fun f => f.path)) })

/-- `MovieService.update`. -/
def MovieService.update (st : St) (id : Nat) (d : UpdateInput) :
    Except ServiceError MovieDetail × St :=
  match Db.findMovie st.db id with
  | none => (.error (.notFound "影片不存在"), st)
  | some m =>
    if (match d.mtype with
        | some t => !t.isEmpty && !(validTypes.contains t)
        | none => false) then
      (.error (.validation "无效的影片类型"), st)
    else if (match d.rating with | some r => decide (r < 0 ∨ 10 < r) | none => false) then
      (.error (.validation "评分必须在 0-10 之间"), st)
    else if (match d.tagIds with
             | some ids => !ids.isEmpty
                && (TagRepository.findByIds st.db ids).length != ids.length
             | none => false) then
      (.error (.validation "部分标签不存在"), st)
    else
      let db2 := MovieRepository.update st.db id d
      (.ok (formatMovieResponse db2 (applyUpdate m d st.db.now)), { st with db := db2 })

/-- `MovieService.delete`: best-effort deletion of the movie's files, then the
cascading row delete. -/
def MovieService.delete (st : St) (id : Nat) : Except ServiceError Unit × St :=
  match Db.findMovie st.db id with
  | none => (.error (.notFound "影片不存在"), st)
  | some m =>
      let storage2 := FileUtil.deleteFiles st.storage
        ((st.db.entryImages m.id).map (fun im => FileUtil.getAbsolutePath im.path))
      (.ok (), { db := MovieRepository.delete st.db id, storage := storage2 })

/-- `MovieService.addImages`. -/
def MovieService.addImages (st : St) (mid : Nat) (files : List UploadedFile)
    (setCover : Bool) : Except ServiceError Unit × St :=
  match Db.findMovie st.db mid with
  | none => (.error (.notFound "影片不存在"), st)
  | some _ =>
    if files.isEmpty then
      (.error (.validation "请上传至少一张图片"), st)
    else
      (.ok (), { st with db := MovieRepository.addImages st.db mid (imagesForAdd setCover 0 files) })

/-- `MovieService.deleteImage`: ownership-checked lookup, best-effort file
delete, row delete, then cover promotion when the deleted image was the
cover. -/
def MovieService.deleteImage (st : St) (mid imageId : Nat) :
    Except ServiceError Unit × St :=
  match MovieRepository.findImageById st.db imageId mid with
  | none => (.error (.notFound "图片不存在或不属于该影片"), st)
  | some image =>
      let storage2 := FileUtil.deleteFile st.storage (FileUtil.getAbsolutePath image.path)
      let db2 := MovieRepository.deleteImage st.db imageId
      let db3 :=
        if image.isCover then
          match MovieRepository.getFirstImage db2 mid with
          | some first => MovieRepository.setCoverImage db2 mid first.id
          | none => db2
        else db2
      (.ok (), { db := db3, storage := storage2 })

/-- `MovieService.findById`. -/
def MovieService.findById (st : St) (id : Nat) : Except ServiceError MovieDetail :=
  match Db.findMovie st.db id with
  | none => .error (.notFound "影片不存在")
  | some m => .ok (formatMovieResponseCoverFirst st.db m)

/-! ## MovieService.findMany -/

inductive SortKey where
  | createdAt
  | rating
  | releaseYear
deriving Repr, DecidableEq

inductive SortOrder where
  | asc
  | desc
deriving Repr, DecidableEq

/-- Query parameters of `findMany` (after controller parsing; `none` =
omitted). -/
structure FindManyParams where
  page : Option Int
  limit : Option Int
  mtype : Option String
  tagIds : Option (List Nat)
  minRating : Option Rat
  maxRating : Option Rat
  minYear : Option Int
  maxYear : Option Int
  keyword : Option String
  sortBy : Option SortKey
  order : Option SortOrder
deriving Repr, DecidableEq

def FindManyParams.empty : FindManyParams :=
  { page := none, limit := none, mtype := none, tagIds := none
    minRating := none, maxRating := none, minYear := none, maxYear := none
    keyword := none, sortBy := none, order := none }

/-- The `where` predicate `findMany` assembles: the conjunction of every
provided (truthy, for `type`/`keyword`/`tagIds`) filter.
  - `type`: exact match;
  - `rating`/`releaseYear`: inclusive range on a nullable column (a null
    column value never satisfies a range clause);
  - `keyword`: `OR` of case-insensitive substring match on title and comment;
  - `tagIds`: `movieTags: some (tagId in ids)`. -/
def matchesWhere (db : Db) (p : FindManyParams) (m : Movie) : Bool :=
  (match p.mtype with
   | some t => if t.isEmpty then true else m.mtype == t
   | none => true)
  && (if p.minRating.isSome || p.maxRating.isSome then
        match m.rating with
        | none => false
        | some r =>
            (match p.minRating with | some lo => decide (lo ≤ r) | none => true)
            && (match p.maxRating with | some hi => decide (r ≤ hi) | none => true)
      else true)
  && (if p.minYear.isSome || p.maxYear.isSome then
        match m.releaseYear with
        | none => false
        | some y =>
            (match p.minYear with | some lo => decide (lo ≤ y) | none => true)
            && (match p.maxYear with | some hi => decide (y ≤ hi) | none => true)
      else true)
  && (match p.keyword with
      | some k =>
          if k.isEmpty then true
          else strContainsCI m.title k
            || (match m.comment with | some c => strContainsCI c k | none => false)
      | none => true)
  && (match p.tagIds with
      | some ids =>
          if ids.isEmpty then true
          else db.movieTags.any (fun l => l.movieId == m.id && ids.contains l.tagId)
      | none => true)

/-- The spec's keyword predicate, written from the spec's words for
comparison with the `where` clause the code builds: case-insensitive
substring match against either title or comment (logical OR). -/
def specKeywordMatch (m : Movie) (kw : String) : Bool :=
  strContainsCI m.title kw
    || (match m.comment with | some c => strContainsCI c kw | none => false)

/-- The spec's tag-filter predicate, written from the spec's words: the
entry is linked to at least one of the given tags. -/
def specTagMatch (db : Db) (ids : List Nat) (m : Movie) : Bool :=
  db.movieTags.any (fun l => l.movieId == m.id && ids.contains l.tagId)

/-- Sort comparison for `orderBy: { [sortBy]: order }`.  Null column values
follow the PostgreSQL defaults (nulls last ascending, nulls first
descending). -/
def sortLE (k : SortKey) (o : SortOrder) (a b : Movie) : Bool :=
  let cmpOpt : Option Rat → Option Rat → Bool := fun x y =>
    match x, y with
    | some u, some v => match o with | .asc => decide (u ≤ v) | .desc => decide (v ≤ u)
    | some _, none => match o with | .asc => true | .desc => false
    | none, some _ => match o with | .asc => false | .desc => true
    | none, none => true
  match k with
  | .createdAt => match o with
      | .asc => a.createdAt ≤ b.createdAt
      | .desc => b.createdAt ≤ a.createdAt
  | .rating => cmpOpt a.rating b.rating
  | .releaseYear => cmpOpt (a.releaseYear.map (fun y => (y : Rat)))
      (b.releaseYear.map (fun y => (y : Rat)))

def insertSorted (le : Movie → Movie → Bool) (x : Movie) : List Movie → List Movie
  | [] => [x]
  | y :: ys => if le x y then x :: y :: ys else y :: insertSorted le x ys

def sortMovies (le : Movie → Movie → Bool) : List Movie → List Movie
  | [] => []
  | x :: xs => insertSorted le x (sortMovies le xs)

structure Pagination where
  page : Int
  limit : Int
  total : Nat
  totalPages : Int
deriving Repr, DecidableEq

structure FindManyResult where
  data : List MovieListItem
  pagination : Pagination
deriving Repr, DecidableEq

/-- `MovieService.findMany`: defaults `page || 1`, `Math.min(limit || 10,
100)`; one filtered count and one filtered, sorted, paginated fetch over the
same predicate; `totalPages = Math.ceil(total / limit)`. -/
def MovieService.findMany (st : St) (p : FindManyParams) : FindManyResult :=
  let page : Int := jsOrInt p.page 1
  let limit : Int := min (jsOrInt p.limit 10) 100
  let sortBy := p.sortBy.getD SortKey.createdAt
  let ord := p.order.getD SortOrder.desc
  let matching := st.db.movies.filter (matchesWhere st.db p)
  let sorted := sortMovies (sortLE sortBy ord) matching
  let pageItems := ((sorted.drop ((page - 1) * limit).toNat).take limit.toNat)
  { data := pageItems.map (formatMovieListItem st.db)
    pagination :=
      { page := page, limit := limit, total := matching.length
        totalPages := Int.ceil ((matching.length : Rat) / (limit : Rat)) } }

/-! ## The write-operation state machine (sequences of service calls) -/

inductive Op where
  | create (d : CreateInput) (repoFail : Bool)
  | update (id : Nat) (d : UpdateInput)
  | addImages (mid : Nat) (files : List UploadedFile) (setCover : Bool)
  | deleteImage (mid imageId : Nat)
  | delete (id : Nat)
deriving Repr

/-- State reached after one service call completes (on an error result the
call's state, as defined above, is kept — validation and not-found failures
leave it untouched, and a failed create insert is rolled back). -/
def step (st : St) : Op → St
  | .create d f => (MovieService.create st d f).2
  | .update id d => (MovieService.update st id d).2
  | .addImages mid files sc => (MovieService.addImages st mid files sc).2
  | .deleteImage mid imageId => (MovieService.deleteImage st mid imageId).2
  | .delete id => (MovieService.delete st id).2

def run (st : St) (ops : List Op) : St :=
  ops.foldl step st

/-- The database produced by a successful create insert. -/
def createdDb (db : Db) (d : CreateInput) : Db :=
  { movies := db.movies ++
      [{ id := db.nextMovieId, title := d.title, mtype := d.mtype
         rating := d.rating, releaseYear := d.releaseYear, comment := d.comment
         createdAt := db.now, updatedAt := db.now }]
    images := db.images ++ mkImageRows db.nextMovieId db.now db.nextImageId (createImages d)
    tags := db.tags
    movieTags := db.movieTags
      ++ (d.tagIds.getD []).map (fun tid => { movieId := db.nextMovieId, tagId := tid : MovieTag })
    nextMovieId := db.nextMovieId + 1
    nextImageId := db.nextImageId + (createImages d).length
    now := db.now + 1 }

/-- The database a successful deleteImage leaves behind. -/
def deleteImageDb (db : Db) (mid imageId : Nat) (wasCover : Bool) : Db :=
  let db2 := MovieRepository.deleteImage db imageId
  if wasCover then
    match MovieRepository.getFirstImage db2 mid with
    | some first => MovieRepository.setCoverImage db2 mid first.id
    | none => db2
  else db2

/-! ## Concrete example data used by witnesses and counterexamples -/

def fileA : UploadedFile := { path := "uploads/movies/a.jpg" }

def fileB : UploadedFile := { path := "uploads/movies/b.jpg" }

/-- A create request whose `coverIndex` (1) does not designate any of its
files (only one file, index 0). -/
def createOutOfRange : CreateInput :=
  { title := "A", mtype := "movie", rating := none, releaseYear := none
    comment := none, tagIds := none, files := [fileA], coverIndex := some 1 }

/-- The same create request with the default cover index. -/
def createInRange : CreateInput :=
  { title := "A", mtype := "movie", rating := none, releaseYear := none
    comment := none, tagIds := none, files := [fileA], coverIndex := none }

def movieA : Movie :=
  { id := 1, title := "A", mtype := "movie", rating := none, releaseYear := none
    comment := none, createdAt := 0, updatedAt := 0 }

/-- One movie, one tag, one tag link. -/
def dbOneMovie : Db :=
  { movies := [movieA], images := [], tags := [{ id := 1, name := "x" }]
    movieTags := [{ movieId := 1, tagId := 1 }]
    nextMovieId := 2, nextImageId := 1, now := 1 }

def updReplaceTags : UpdateInput :=
  { title := some "B", mtype := none, rating := none, releaseYear := none
    comment := none, tagIds := some [] }

def imgCover : Image :=
  { id := 1, movieId := 1, path := "movies/a.jpg", isCover := true, createdAt := 0 }

def imgOther : Image :=
  { id := 2, movieId := 1, path := "movies/b.jpg", isCover := false, createdAt := 0 }

def imgThird : Image :=
  { id := 3, movieId := 1, path := "movies/c.jpg", isCover := false, createdAt := 1 }

/-- One movie owning three images, the first of which is the cover. -/
def dbWithImages : Db :=
  { movies := [movieA], images := [imgCover, imgOther, imgThird], tags := []
    movieTags := [], nextMovieId := 2, nextImageId := 4, now := 2 }

/-- 101 movies with distinct ids and creation times. -/
def db101 : Db :=
  { movies := (List.range 101).map
      (fun i => { movieA with id := i + 1, createdAt := i, updatedAt := i })
    images := [], tags := [], movieTags := []
    nextMovieId := 102, nextImageId := 1, now := 101 }

def paramsLimit10 : FindManyParams :=
  { FindManyParams.empty with limit := some 10 }

def paramsLimit500 : FindManyParams :=
  { FindManyParams.empty with limit := some 500 }

def movieTitleHit : Movie :=
  { id := 1, title := "Inception", mtype := "movie", rating := none
    releaseYear := none, comment := none, createdAt := 0, updatedAt := 0 }

def movieCommentHit : Movie :=
  { id := 2, title := "Other", mtype := "movie", rating := none
    releaseYear := none, comment := some "like INCEPTION but slower"
    createdAt := 1, updatedAt := 1 }

def movieMiss : Movie :=
  { id := 3, title := "Other", mtype := "movie", rating := none
    releaseYear := none, comment := some "nothing here", createdAt := 2, updatedAt := 2 }

def dbKeyword : Db :=
  { movies := [movieTitleHit, movieCommentHit, movieMiss], images := [], tags := []
    movieTags := [], nextMovieId := 4, nextImageId := 1, now := 3 }

def paramsKw : FindManyParams :=
  { FindManyParams.empty with keyword := some "incep" }

/-- One movie linked to tag 1 (A) only, while tags 1 and 2 both exist. -/
def dbTags : Db :=
  { movies := [movieA], images := []
    tags := [{ id := 1, name := "A" }, { id := 2, name := "B" }]
    movieTags := [{ movieId := 1, tagId := 1 }]
    nextMovieId := 2, nextImageId := 1, now := 1 }

def paramsTagsAB : FindManyParams :=
  { FindManyParams.empty with tagIds := some [1, 2] }

/-! ## The cover invariant and database well-formedness -/

/-- Cover invariant: every entry that has at least one image has exactly one
cover-flagged image.  (An entry without images trivially has no cover-flagged
image, see `coverCount_of_no_images`.) -/
def CoverInv (db : Db) : Prop :=
  ∀ mid : Nat, db.entryImages mid ≠ [] → db.coverCount mid = 1

/-- Structural well-formedness the real schema provides: `SERIAL` ids are
below their sequences and unique, and every image's movie id was issued. -/
structure DbWF (db : Db) : Prop where
  imgId : ∀ im ∈ db.images, im.id < db.nextImageId
  imgMov : ∀ im ∈ db.images, im.movieId < db.nextMovieId
  movId : ∀ m ∈ db.movies, m.id < db.nextMovieId
  imgNodup : (db.images.map (fun im => im.id)).Nodup

/-- Input discipline under which the write paths maintain the cover
invariant: a create's cover index designates one of its files (vacuous with
no files), and adding images without `setCover` only happens on entries that
already have an image (ownership of a cover), whenever the call would
actually insert. -/
def goodOp (st : St) : Op → Prop
  | .create d _ =>
      d.files = [] ∨
        ((0 : Int) ≤ d.coverIndex.getD 0 ∧ d.coverIndex.getD 0 < (d.files.length : Int))
  | .addImages mid files sc =>
      sc = false → (Db.findMovie st.db mid).isSome → files ≠ [] →
        st.db.entryImages mid ≠ []
  | _ => True

/-- A sequence of operations each of which satisfies `goodOp` in the state
where it runs. -/
inductive GoodSeq : St → List Op → Prop
  | nil (st : St) : GoodSeq st []
  | cons {st : St} {op : Op} {ops : List Op} :
      goodOp st op → GoodSeq (step st op) ops → GoodSeq st (op :: ops)

lemma coverCount_of_no_images (db : Db) (mid : Nat)
    (h : db.entryImages mid = []) : db.coverCount mid = 0 := by
  simp [Db.coverCount, coversOf, h]

/-! ## Counting lemmas for the image builders -/

lemma mkImageRows_movieId (mid now : Nat) :
    ∀ (nid : Nat) (inputs : List ImageInput),
      ∀ im ∈ mkImageRows mid now nid inputs, im.movieId = mid := by
  intro nid inputs
  induction inputs generalizing nid with
  | nil => simp [mkImageRows]
  | cons x xs ih =>
      intro im hm
      simp only [mkImageRows, List.mem_cons] at hm
      rcases hm with h | h
      · simp [h]
      · exact ih _ im h

lemma mkImageRows_ids (mid now : Nat) :
    ∀ (nid : Nat) (inputs : List ImageInput),
      (mkImageRows mid now nid inputs).map (fun im => im.id)
        = List.range' nid inputs.length := by
  intro nid inputs
  induction inputs generalizing nid with
  | nil => simp [mkImageRows]
  | cons x xs ih => simp [mkImageRows, List.range'_succ, ih]

lemma mkImageRows_length (mid now : Nat) (nid : Nat) (inputs : List ImageInput) :
    (mkImageRows mid now nid inputs).length = inputs.length := by
  have := congrArg List.length (mkImageRows_ids mid now nid inputs)
  simpa using this

lemma mkImageRows_covers (mid now : Nat) :
    ∀ (nid : Nat) (inputs : List ImageInput),
      ((mkImageRows mid now nid inputs).filter (fun im => im.isCover)).length
        = (inputs.filter (fun x => x.isCover)).length := by
  intro nid inputs
  induction inputs generalizing nid with
  | nil => simp [mkImageRows]
  | cons x xs ih =>
      by_cases hx : x.isCover
      · simp [mkImageRows, List.filter_cons, hx, ih]
      · simp [mkImageRows, List.filter_cons, hx, ih]

lemma imagesWithCover_covers (ci : Int) :
    ∀ (i : Nat) (files : List UploadedFile),
      ((imagesWithCover ci i files).filter (fun x => x.isCover)).length
        = if (i : Int) ≤ ci ∧ ci < (i : Int) + files.length then 1 else 0 := by
  intro i files
  induction files generalizing i with
  | nil =>
      have h : ¬ ((i : Int) ≤ ci ∧ ci < (i : Int) + (([] : List UploadedFile).length : Int)) := by
        simp only [List.length_nil, Nat.cast_zero, add_zero]
        omega
      rw [if_neg h]
      simp [imagesWithCover]
  | cons f fs ih =>
      have htail := ih (i + 1)
      simp only [imagesWithCover, List.filter_cons]
      by_cases hci : (i : Int) = ci
      · have hb : (((i : Int) == ci) : Bool) = true := beq_iff_eq.mpr hci
        rw [hb, if_pos rfl, List.length_cons, htail]
        have h1 : ¬ (((i + 1 : Nat) : Int) ≤ ci ∧ ci < ((i + 1 : Nat) : Int) + (fs.length : Int)) := by
          push_cast
          omega
        rw [if_neg h1]
        have h2 : (i : Int) ≤ ci ∧ ci < (i : Int) + (((f :: fs).length : Nat) : Int) := by
          simp only [List.length_cons]
          push_cast
          omega
        rw [if_pos h2]
      · have hb : (((i : Int) == ci) : Bool) = false := beq_eq_false_iff_ne.mpr hci
        rw [hb]
        simp only [Bool.false_eq_true, if_false, htail]
        have hiff : (((i + 1 : Nat) : Int) ≤ ci ∧ ci < ((i + 1 : Nat) : Int) + (fs.length : Int))
            ↔ ((i : Int) ≤ ci ∧ ci < (i : Int) + (((f :: fs).length : Nat) : Int)) := by
          simp only [List.length_cons]
          push_cast
          constructor <;> (intro h; omega)
        by_cases hc : (i : Int) ≤ ci ∧ ci < (i : Int) + (((f :: fs).length : Nat) : Int)
        · rw [if_pos (hiff.mpr hc), if_pos hc]
        · rw [if_neg (fun h => hc (hiff.mp h)), if_neg hc]

lemma imagesForAdd_covers (sc : Bool) :
    ∀ (i : Nat) (files : List UploadedFile),
      ((imagesForAdd sc i files).filter (fun x => x.isCover)).length
        = if sc = true ∧ i = 0 ∧ files ≠ [] then 1 else 0 := by
  intro i files
  induction files generalizing i with
  | nil => simp [imagesForAdd]
  | cons f fs ih =>
      have htail := ih (i + 1)
      rw [if_neg (by simp)] at htail
      simp only [imagesForAdd, List.filter_cons]
      by_cases hsc : sc = true
      · subst hsc
        by_cases hi : i = 0
        · subst hi
          rw [show ((true && (0 == 0) : Bool)) = true from rfl, if_pos rfl,
            List.length_cons, htail]
          rw [if_pos (by simp)]
        · have hb : ((true && (i == 0) : Bool)) = false := by simp [hi]
          rw [hb]
          simp only [Bool.false_eq_true, if_false, htail]
          rw [if_neg (fun h => hi h.2.1)]
      · have hs : sc = false := by revert hsc; cases sc <;> simp
        subst hs
        rw [show ((false && (i == 0) : Bool)) = false from rfl]
        simp only [Bool.false_eq_true, if_false, htail]
        rw [if_neg (by simp)]

lemma filter_movieId_const {rows : List Image} {mid0 : Nat}
    (h : ∀ im ∈ rows, im.movieId = mid0) (mid : Nat) :
    rows.filter (fun im => im.movieId == mid) = if mid0 = mid then rows else [] := by
  by_cases he : mid0 = mid
  · subst he
    rw [if_pos rfl]
    exact List.filter_eq_self.mpr (fun im hm => by simp [h im hm])
  · rw [if_neg he]
    exact List.filter_eq_nil_iff.mpr (fun im hm => by simp [h im hm, he])

lemma filter_movieId_map {l : List Image} {f : Image → Image}
    (hf : ∀ im, (f im).movieId = im.movieId) (mid : Nat) :
    (l.map f).filter (fun im => im.movieId == mid)
      = (l.filter (fun im => im.movieId == mid)).map f := by
  rw [List.filter_map]
  congr 1
  apply List.filter_congr
  intro im _
  simp [Function.comp, hf]

lemma imagesWithCover_length (ci : Int) :
    ∀ (i : Nat) (files : List UploadedFile),
      (imagesWithCover ci i files).length = files.length := by
  intro i files
  induction files generalizing i with
  | nil => simp [imagesWithCover]
  | cons f fs ih => simp [imagesWithCover, ih]

lemma imagesForAdd_length (sc : Bool) :
    ∀ (i : Nat) (files : List UploadedFile),
      (imagesForAdd sc i files).length = files.length := by
  intro i files
  induction files generalizing i with
  | nil => simp [imagesForAdd]
  | cons f fs ih => simp [imagesForAdd, ih]

/-! ## Shape of each write operation's database effect -/

lemma create_db_cases (st : St) (d : CreateInput) (rf : Bool) :
    (MovieService.create st d rf).2.db = st.db ∨
      (MovieService.create st d rf).2.db = createdDb st.db d := by
  unfold MovieService.create
  split_ifs with h1 h2 h3 h4
  · left; rfl
  · left; rfl
  · left; rfl
  · cases rf
    · right; simp [MovieRepository.create, createdDb]
    · left; simp [MovieRepository.create]
  · cases rf
    · right; simp [MovieRepository.create, createdDb]
    · left; simp [MovieRepository.create]

lemma update_db_cases (st : St) (id : Nat) (d : UpdateInput) :
    (MovieService.update st id d).2.db = st.db ∨
      (MovieService.update st id d).2.db = MovieRepository.update st.db id d := by
  unfold MovieService.update
  cases hF : Db.findMovie st.db id with
  | none => simp
  | some m =>
      simp only
      split_ifs with h1 h2 h3
      · left; rfl
      · left; rfl
      · left; rfl
      · right; rfl

lemma repoUpdate_images (db : Db) (id : Nat) (d : UpdateInput) :
    (MovieRepository.update db id d).images = db.images := by
  unfold MovieRepository.update
  cases d.tagIds <;> rfl

lemma delete_db_cases (st : St) (id : Nat) :
    (MovieService.delete st id).2.db = st.db ∨
      (MovieService.delete st id).2.db = MovieRepository.delete st.db id := by
  unfold MovieService.delete
  cases hF : Db.findMovie st.db id with
  | none => simp
  | some m => simp

lemma addImages_db_cases (st : St) (mid : Nat) (files : List UploadedFile) (sc : Bool) :
    (MovieService.addImages st mid files sc).2.db = st.db ∨
      ((Db.findMovie st.db mid).isSome ∧ files ≠ [] ∧
        (MovieService.addImages st mid files sc).2.db
          = MovieRepository.addImages st.db mid (imagesForAdd sc 0 files)) := by
  unfold MovieService.addImages
  cases hF : Db.findMovie st.db mid with
  | none => simp
  | some m =>
      by_cases hf : files.isEmpty
      · left; simp [hf]
      · right
        refine ⟨rfl, by simpa using hf, by simp [hf]⟩

lemma deleteImage_db_cases (st : St) (mid imageId : Nat) :
    (MovieService.deleteImage st mid imageId).2.db = st.db ∨
      (∃ im, MovieRepository.findImageById st.db imageId mid = some im ∧
        (MovieService.deleteImage st mid imageId).2.db
          = deleteImageDb st.db mid imageId im.isCover) := by
  unfold MovieService.deleteImage
  cases hF : MovieRepository.findImageById st.db imageId mid with
  | none => simp
  | some im =>
      right
      exact ⟨im, rfl, rfl⟩

/-! ## Invariant preservation: create -/

lemma entryImages_createdDb_ne {db : Db} (d : CreateInput) {mid : Nat}
    (hm : db.nextMovieId ≠ mid) :
    (createdDb db d).entryImages mid = db.entryImages mid := by
  simp only [createdDb, Db.entryImages, List.filter_append]
  rw [filter_movieId_const (mkImageRows_movieId _ _ _ _), if_neg hm, List.append_nil]

lemma entryImages_createdDb_eq {db : Db} (d : CreateInput) (hwf : DbWF db) :
    (createdDb db d).entryImages db.nextMovieId
      = mkImageRows db.nextMovieId db.now db.nextImageId (createImages d) := by
  simp only [createdDb, Db.entryImages, List.filter_append]
  rw [filter_movieId_const (mkImageRows_movieId _ _ _ _), if_pos rfl]
  have h0 : db.images.filter (fun im => im.movieId == db.nextMovieId) = [] :=
    List.filter_eq_nil_iff.mpr (fun im hm => by
      have := hwf.imgMov im hm
      simp only [beq_iff_eq]
      omega)
  rw [h0, List.nil_append]

lemma coverInv_createdDb {db : Db} {d : CreateInput} (hwf : DbWF db)
    (hinv : CoverInv db)
    (hgood : d.files = [] ∨
      ((0 : Int) ≤ d.coverIndex.getD 0 ∧ d.coverIndex.getD 0 < (d.files.length : Int))) :
    CoverInv (createdDb db d) := by
  intro mid hne
  by_cases hm : db.nextMovieId = mid
  · subst hm
    simp only [Db.coverCount, coversOf, entryImages_createdDb_eq d hwf, mkImageRows_covers]
    rcases hgood with hf | hci
    · exfalso
      apply hne
      rw [entryImages_createdDb_eq d hwf]
      simp [createImages, hf, mkImageRows]
    · have hfne : d.files.isEmpty = false := by
        rcases hE : d.files with _ | ⟨f, fs⟩
        · rw [hE] at hci; simp at hci; omega
        · simp
      simp only [createImages, hfne, Bool.false_eq_true, if_false]
      rw [imagesWithCover_covers, if_pos (by simpa using hci)]
  · have hEI := entryImages_createdDb_ne d hm
    have hcc : (createdDb db d).coverCount mid = db.coverCount mid := by
      simp only [Db.coverCount, coversOf, hEI]
    rw [hcc]
    apply hinv
    rwa [hEI] at hne

lemma dbWF_createdDb {db : Db} (d : CreateInput) (hwf : DbWF db) :
    DbWF (createdDb db d) := by
  constructor
  · intro im hm
    simp only [createdDb, List.mem_append] at hm
    rcases hm with h | h
    · have := hwf.imgId im h
      simp only [createdDb]
      omega
    · have hmem : im.id ∈ (mkImageRows db.nextMovieId db.now db.nextImageId
          (createImages d)).map (fun im => im.id) := List.mem_map_of_mem _ h
      rw [mkImageRows_ids, List.mem_range'] at hmem
      obtain ⟨i, hi, hid⟩ := hmem
      simp only [createdDb]
      omega
  · intro im hm
    simp only [createdDb, List.mem_append] at hm
    rcases hm with h | h
    · have := hwf.imgMov im h
      simp only [createdDb]
      omega
    · have := mkImageRows_movieId _ _ _ _ im h
      simp only [createdDb]
      omega
  · intro m hm
    simp only [createdDb, List.mem_append, List.mem_singleton] at hm
    rcases hm with h | h
    · have := hwf.movId m h
      simp only [createdDb]
      omega
    · subst h
      simp only [createdDb]
      omega
  · simp only [createdDb, List.map_append, mkImageRows_ids]
    rw [List.nodup_append]
    refine ⟨hwf.imgNodup, List.nodup_range' _ _, ?_⟩
    intro a ha hb
    obtain ⟨im, hmem, hid⟩ := List.mem_map.mp ha
    rw [List.mem_range'] at hb
    obtain ⟨i, hi, hval⟩ := hb
    have := hwf.imgId im hmem
    omega

/-! ## Invariant preservation: update and delete -/

lemma coverInv_of_images_eq {db db2 : Db} (h : db2.images = db.images)
    (hinv : CoverInv db) : CoverInv db2 := by
  intro mid hne
  have hEI : db2.entryImages mid = db.entryImages mid := by
    simp only [Db.entryImages, h]
  simp only [Db.coverCount, coversOf, hEI]
  apply hinv
  rwa [hEI] at hne

lemma dbWF_repoUpdate {db : Db} (id : Nat) (d : UpdateInput) (hwf : DbWF db) :
    DbWF (MovieRepository.update db id d) := by
  have himg := repoUpdate_images db id d
  have hrest : (MovieRepository.update db id d).nextImageId = db.nextImageId ∧
      (MovieRepository.update db id d).nextMovieId = db.nextMovieId := by
    unfold MovieRepository.update
    cases d.tagIds <;> exact ⟨rfl, rfl⟩
  have hmov : ∀ m ∈ (MovieRepository.update db id d).movies, m.id < db.nextMovieId := by
    have hmovies : (MovieRepository.update db id d).movies
        = db.movies.map (fun m => if m.id == id then applyUpdate m d db.now else m) := by
      unfold MovieRepository.update
      cases d.tagIds <;> rfl
    rw [hmovies]
    intro m hm
    obtain ⟨m0, hm0, hval⟩ := List.mem_map.mp hm
    have hid : m.id = m0.id := by
      by_cases hc : m0.id == id
      · rw [← hval]; simp [hc, applyUpdate]
      · rw [← hval]; simp [hc]
    rw [hid]
    exact hwf.movId m0 hm0
  constructor
  · rw [himg, hrest.1]; exact hwf.imgId
  · rw [himg, hrest.2]; exact hwf.imgMov
  · rw [hrest.2]; exact hmov
  · rw [himg]; exact hwf.imgNodup

lemma entryImages_repoDelete {db : Db} (id : Nat) (mid : Nat) :
    (MovieRepository.delete db id).entryImages mid
      = if mid = id then [] else db.entryImages mid := by
  simp only [MovieRepository.delete, Db.entryImages, List.filter_filter]
  by_cases hm : mid = id
  · subst hm
    rw [if_pos rfl]
    exact List.filter_eq_nil_iff.mpr (fun im _ => by
      by_cases hx : im.movieId = mid <;> simp [hx])
  · rw [if_neg hm]
    apply List.filter_congr
    intro im _
    by_cases hx : im.movieId = mid
    · have : im.movieId ≠ id := by rw [hx]; exact hm
      simp [hx, this, hm]
    · simp [hx]

lemma coverInv_repoDelete {db : Db} (id : Nat)
    (hinv : CoverInv db) : CoverInv (MovieRepository.delete db id) := by
  intro mid hne
  rw [entryImages_repoDelete id] at hne
  by_cases hm : mid = id
  · rw [if_pos hm] at hne
    exact absurd rfl hne
  · rw [if_neg hm] at hne
    have hEI := @entryImages_repoDelete db id mid
    rw [if_neg hm] at hEI
    simp only [Db.coverCount, coversOf, hEI]
    exact hinv mid hne

lemma dbWF_repoDelete {db : Db} (id : Nat) (hwf : DbWF db) :
    DbWF (MovieRepository.delete db id) := by
  constructor
  · intro im hm
    simp only [MovieRepository.delete, List.mem_filter] at hm
    exact hwf.imgId im hm.1
  · intro im hm
    simp only [MovieRepository.delete, List.mem_filter] at hm
    exact hwf.imgMov im hm.1
  · intro m hm
    simp only [MovieRepository.delete, List.mem_filter] at hm
    exact hwf.movId m hm.1
  · exact hwf.imgNodup.sublist ((List.filter_sublist _).map _)

/-! ## Invariant preservation: addImages -/

lemma imagesForAdd_all_false :
    ∀ (i : Nat) (files : List UploadedFile) (x : ImageInput),
      x ∈ imagesForAdd false i files → x.isCover = false := by
  intro i files
  induction files generalizing i with
  | nil => intro x hx; simp [imagesForAdd] at hx
  | cons f fs ih =>
      intro x hx
      simp only [imagesForAdd, List.mem_cons] at hx
      rcases hx with h | h
      · simp [h]
      · exact ih _ x h

lemma imagesForAdd_any (sc : Bool) {files : List UploadedFile} (h : files ≠ []) :
    (imagesForAdd sc 0 files).any (fun img => img.isCover) = sc := by
  rcases files with _ | ⟨f, fs⟩
  · exact absurd rfl h
  · cases sc with
    | true => simp [imagesForAdd]
    | false =>
        simp only [imagesForAdd, List.any_cons]
        rw [List.any_eq_false.mpr (fun x hx => by
          simp [imagesForAdd_all_false 1 fs x hx])]
        simp

lemma clearAll_movieId (mid : Nat) (im : Image) :
    ((if im.movieId == mid then { im with isCover := false } else im) : Image).movieId
      = im.movieId := by
  by_cases h : im.movieId == mid <;> simp [h]

lemma coversOf_clearAll (mid : Nat) (l : List Image) :
    coversOf ((l.filter (fun im => im.movieId == mid)).map
      (fun im => if im.movieId == mid then { im with isCover := false } else im)) = [] := by
  apply List.filter_eq_nil_iff.mpr
  intro x hx
  obtain ⟨im, hmem, hval⟩ := List.mem_map.mp hx
  have hmid : (im.movieId == mid) = true := (List.mem_filter.mp hmem).2
  rw [← hval]
  simp [hmid]

lemma coverInv_repoAddImages {db : Db} {mid : Nat} {files : List UploadedFile} {sc : Bool}
    (hinv : CoverInv db) (hfne : files ≠ [])
    (hpre : sc = false → db.entryImages mid ≠ []) :
    CoverInv (MovieRepository.addImages db mid (imagesForAdd sc 0 files)) := by
  have hany := imagesForAdd_any sc hfne
  have hrowsMov := mkImageRows_movieId mid db.now db.nextImageId (imagesForAdd sc 0 files)
  intro mid' hne'
  cases sc with
  | false =>
      have hcl : (MovieRepository.addImages db mid (imagesForAdd false 0 files)).images
          = db.images ++ mkImageRows mid db.now db.nextImageId (imagesForAdd false 0 files) := by
        unfold MovieRepository.addImages
        rw [hany]
        simp
      by_cases hm : mid = mid'
      · subst hm
        have hEI : (MovieRepository.addImages db mid (imagesForAdd false 0 files)).entryImages mid
            = db.entryImages mid
              ++ mkImageRows mid db.now db.nextImageId (imagesForAdd false 0 files) := by
          simp only [Db.entryImages, hcl, List.filter_append]
          rw [filter_movieId_const hrowsMov, if_pos rfl]
        simp only [Db.coverCount, coversOf, hEI, List.filter_append, List.length_append]
        rw [mkImageRows_covers, imagesForAdd_covers, if_neg (by simp)]
        have h1 := hinv mid (hpre rfl)
        simp only [Db.coverCount, coversOf, Db.entryImages] at h1 ⊢
        omega
      · have hEI : (MovieRepository.addImages db mid (imagesForAdd false 0 files)).entryImages mid'
            = db.entryImages mid' := by
          simp only [Db.entryImages, hcl, List.filter_append]
          rw [filter_movieId_const hrowsMov, if_neg hm, List.append_nil]
        simp only [Db.coverCount, coversOf, hEI]
        exact hinv mid' (by rwa [hEI] at hne')
  | true =>
      have hcl : (MovieRepository.addImages db mid (imagesForAdd true 0 files)).images
          = db.images.map (fun im => if im.movieId == mid then { im with isCover := false } else im)
            ++ mkImageRows mid db.now db.nextImageId (imagesForAdd true 0 files) := by
        unfold MovieRepository.addImages
        rw [hany]
        simp
      by_cases hm : mid = mid'
      · subst hm
        have hEI : (MovieRepository.addImages db mid (imagesForAdd true 0 files)).entryImages mid
            = (db.images.filter (fun im => im.movieId == mid)).map
                (fun im => if im.movieId == mid then { im with isCover := false } else im)
              ++ mkImageRows mid db.now db.nextImageId (imagesForAdd true 0 files) := by
          simp only [Db.entryImages, hcl, List.filter_append]
          rw [filter_movieId_map (clearAll_movieId mid), filter_movieId_const hrowsMov,
            if_pos rfl]
        simp only [Db.coverCount, coversOf, hEI, List.filter_append, List.length_append]
        have hz := coversOf_clearAll mid db.images
        simp only [coversOf] at hz
        rw [hz]
        rw [mkImageRows_covers, imagesForAdd_covers, if_pos ⟨rfl, rfl, hfne⟩]
        simp
      · have hEI : (MovieRepository.addImages db mid (imagesForAdd true 0 files)).entryImages mid'
            = db.entryImages mid' := by
          simp only [Db.entryImages, hcl, List.filter_append]
          rw [filter_movieId_map (clearAll_movieId mid), filter_movieId_const hrowsMov,
            if_neg hm, List.append_nil]
          calc (db.images.filter (fun im => im.movieId == mid')).map
                (fun im => if im.movieId == mid then { im with isCover := false } else im)
              = (db.images.filter (fun im => im.movieId == mid')).map id := by
                apply List.map_congr_left
                intro im hmem
                have h2 : (im.movieId == mid') = true := (List.mem_filter.mp hmem).2
                have h3 : (im.movieId == mid) = false := by
                  simp only [beq_iff_eq] at h2 ⊢
                  simp only [beq_eq_false_iff_ne, ne_eq]
                  rw [h2]
                  exact fun hcon => hm hcon.symm
                simp [h3]
            _ = db.images.filter (fun im => im.movieId == mid') := List.map_id _
        simp only [Db.coverCount, coversOf, hEI]
        exact hinv mid' (by rwa [hEI] at hne')

lemma dbWF_repoAddImages {db : Db} {mid : Nat} (inputs : List ImageInput)
    (hwf : DbWF db) (hmid : mid < db.nextMovieId) :
    DbWF (MovieRepository.addImages db mid inputs) := by
  have hids : ∀ (cl : List Image),
      (∀ x ∈ cl, x.id < db.nextImageId ∧ x.movieId < db.nextMovieId) →
      (cl.map (fun im => im.id)).Nodup →
      DbWF { db with
        images := cl ++ mkImageRows mid db.now db.nextImageId inputs
        nextImageId := db.nextImageId + inputs.length
        now := db.now + 1 } := by
    intro cl hcl hnd
    constructor
    · intro im hm
      simp only [List.mem_append] at hm
      rcases hm with h | h
      · have := (hcl im h).1
        simp only
        omega
      · have hmem : im.id ∈ (mkImageRows mid db.now db.nextImageId inputs).map
            (fun im => im.id) := List.mem_map_of_mem _ h
        rw [mkImageRows_ids, List.mem_range'] at hmem
        obtain ⟨i, hi, hval⟩ := hmem
        simp only
        omega
    · intro im hm
      simp only [List.mem_append] at hm
      rcases hm with h | h
      · exact (hcl im h).2
      · rw [mkImageRows_movieId _ _ _ _ im h]
        exact hmid
    · exact hwf.movId
    · simp only [List.map_append, mkImageRows_ids]
      rw [List.nodup_append]
      refine ⟨hnd, List.nodup_range' _ _, ?_⟩
      intro a ha hb
      obtain ⟨im, hmem, hid⟩ := List.mem_map.mp ha
      rw [List.mem_range'] at hb
      obtain ⟨i, hi, hval⟩ := hb
      have := (hcl im hmem).1
      omega
  unfold MovieRepository.addImages
  by_cases hA : inputs.any (fun img => img.isCover)
  · rw [if_pos hA]
    apply hids
    · intro x hx
      obtain ⟨im, hmem, hval⟩ := List.mem_map.mp hx
      have h1 : x.id = im.id := by
        rw [← hval]
        by_cases h : im.movieId == mid <;> simp [h]
      have h2 : x.movieId = im.movieId := by
        rw [← hval]
        exact clearAll_movieId mid im
      rw [h1, h2]
      exact ⟨hwf.imgId im hmem, hwf.imgMov im hmem⟩
    · have : (db.images.map (fun im =>
          if im.movieId == mid then { im with isCover := false } else im)).map
            (fun im => im.id) = db.images.map (fun im => im.id) := by
        rw [List.map_map]
        apply List.map_congr_left
        intro im _
        simp only [Function.comp]
        by_cases h : im.movieId == mid <;> simp [h]
      rw [this]
      exact hwf.imgNodup
  · rw [if_neg hA]
    apply hids
    · intro x hx
      exact ⟨hwf.imgId x hx, hwf.imgMov x hx⟩
    · exact hwf.imgNodup

/-! ## Invariant preservation: deleteImage -/

lemma minByCreatedAt_mem : ∀ {l : List Image} {i : Image},
    minByCreatedAt l = some i → i ∈ l := by
  intro l
  induction l with
  | nil => intro i h; simp [minByCreatedAt] at h
  | cons x xs ih =>
      intro i h
      simp only [minByCreatedAt] at h
      cases hx : minByCreatedAt xs with
      | none =>
          rw [hx] at h
          simp at h
          simp [h]
      | some j =>
          rw [hx] at h
          dsimp only at h
          by_cases hle : x.createdAt ≤ j.createdAt
          · rw [if_pos hle] at h
            simp at h
            simp [h]
          · rw [if_neg hle] at h
            simp at h
            subst h
            exact List.mem_cons_of_mem x (ih hx)

lemma minByCreatedAt_isSome {l : List Image} (h : l ≠ []) :
    (minByCreatedAt l).isSome := by
  cases l with
  | nil => exact absurd rfl h
  | cons x xs =>
      simp only [minByCreatedAt]
      cases hx : minByCreatedAt xs with
      | none => simp
      | some j => by_cases hle : x.createdAt ≤ j.createdAt <;> simp [hle]

lemma minByCreatedAt_le : ∀ {l : List Image} {i : Image},
    minByCreatedAt l = some i → ∀ j ∈ l, i.createdAt ≤ j.createdAt := by
  intro l
  induction l with
  | nil => intro i h; simp [minByCreatedAt] at h
  | cons x xs ih =>
      intro i h j hj
      simp only [minByCreatedAt] at h
      cases hx : minByCreatedAt xs with
      | none =>
          rw [hx] at h
          simp at h
          have hxs : xs = [] := by
            by_contra hcon
            have := minByCreatedAt_isSome hcon
            rw [hx] at this
            simp at this
          subst hxs
          simp at hj
          subst hj
          rw [h]
      | some m =>
          rw [hx] at h
          dsimp only at h
          by_cases hle : x.createdAt ≤ m.createdAt
          · rw [if_pos hle] at h
            simp at h
            subst h
            rcases List.mem_cons.mp hj with hje | hjt
            · rw [hje]
            · exact le_trans hle (ih hx j hjt)
          · rw [if_neg hle] at h
            simp at h
            subst h
            rcases List.mem_cons.mp hj with hje | hjt
            · rw [hje]
              omega
            · exact ih hx j hjt

lemma filter_comm_pred (l : List Image) (p q : Image → Bool) :
    (l.filter p).filter q = (l.filter q).filter p := by
  rw [List.filter_filter, List.filter_filter]
  apply List.filter_congr
  intro x _
  rw [Bool.and_comm]

lemma nodup_const_length_le {β : Type} {l : List β} (hnd : l.Nodup) (c : β)
    (h : ∀ x ∈ l, x = c) : l.length ≤ 1 := by
  cases l with
  | nil => simp
  | cons x xs =>
      cases xs with
      | nil => simp
      | cons y ys =>
          exfalso
          have hx := h x (by simp)
          have hy := h y (by simp)
          rw [List.nodup_cons] at hnd
          exact hnd.1 (by rw [hx, hy]; simp)

lemma length_filter_id_one {l : List Image} (hnd : (l.map (fun im => im.id)).Nodup)
    {a : Image} (ha : a ∈ l) :
    (l.filter (fun x => x.id == a.id)).length = 1 := by
  have hmem : a ∈ l.filter (fun x => x.id == a.id) := List.mem_filter.mpr ⟨ha, by simp⟩
  have hpos : 0 < (l.filter (fun x => x.id == a.id)).length :=
    List.length_pos.mpr (List.ne_nil_of_mem hmem)
  have hsub : List.Sublist ((l.filter (fun x => x.id == a.id)).map (fun im => im.id))
      (l.map (fun im => im.id)) := (List.filter_sublist l).map _
  have hle : ((l.filter (fun x => x.id == a.id)).map (fun im => im.id)).length ≤ 1 := by
    apply nodup_const_length_le (hnd.sublist hsub) a.id
    intro v hv
    obtain ⟨x, hxmem, hxval⟩ := List.mem_map.mp hv
    have := (List.mem_filter.mp hxmem).2
    rw [← hxval]
    simpa using this
  rw [List.length_map] at hle
  omega

lemma setCover_movieId (fid : Nat) (x : Image) :
    ((if x.id == fid then { x with isCover := true } else x) : Image).movieId
      = x.movieId := by
  by_cases h : x.id == fid <;> simp [h]

lemma map_preserving_ids {l : List Image} {f : Image → Image}
    (hf : ∀ x, (f x).id = x.id) :
    (l.map f).map (fun im => im.id) = l.map (fun im => im.id) := by
  rw [List.map_map]
  apply List.map_congr_left
  intro x _
  simp [Function.comp, hf]

lemma entryImages_deleteImage_ne {db : Db} {mid imageId : Nat} {im : Image}
    (hwf : DbWF db) (hmem : im ∈ db.images) (hid : im.id = imageId)
    (hmid : im.movieId = mid) :
    ∀ mid', mid' ≠ mid →
      (MovieRepository.deleteImage db imageId).entryImages mid'
        = db.entryImages mid' := by
  intro mid' hne
  simp only [MovieRepository.deleteImage, Db.entryImages, List.filter_filter]
  apply List.filter_congr
  intro x hx
  by_cases hxm : x.movieId = mid'
  · have hxid : x.id ≠ imageId := by
      intro hc
      have hxeq : x = im := List.inj_on_of_nodup_map hwf.imgNodup hx hmem (by rw [hc, hid])
      rw [hxeq] at hxm
      rw [hmid] at hxm
      exact hne hxm.symm
    simp [hxm, hxid]
  · simp [hxm]

lemma entryImages_deleteImage_mid {db : Db} (mid imageId : Nat) :
    (MovieRepository.deleteImage db imageId).entryImages mid
      = (db.entryImages mid).filter (fun x => x.id != imageId) := by
  simp only [MovieRepository.deleteImage, Db.entryImages]
  exact filter_comm_pred _ _ _

lemma coverInv_deleteImageDb {db : Db} {mid imageId : Nat} {im : Image}
    (hwf : DbWF db) (hinv : CoverInv db)
    (hfind : MovieRepository.findImageById db imageId mid = some im) :
    CoverInv (deleteImageDb db mid imageId im.isCover) := by
  have hfind' : db.images.find? (fun x => x.id == imageId && x.movieId == mid) = some im :=
    hfind
  have hmem : im ∈ db.images := List.mem_of_find?_eq_some hfind'
  have hp := List.find?_some hfind'
  simp only [Bool.and_eq_true, beq_iff_eq] at hp
  have hid : im.id = imageId := hp.1
  have hmid : im.movieId = mid := hp.2
  have huniq : ∀ x ∈ db.images, x.id = imageId → x = im := by
    intro x hx hxid
    exact List.inj_on_of_nodup_map hwf.imgNodup hx hmem (by rw [hxid, hid])
  have hE2ne := entryImages_deleteImage_ne hwf hmem hid hmid
  have hE2mid := @entryImages_deleteImage_mid db mid imageId
  have hnd2 : ((MovieRepository.deleteImage db imageId).images.map
      (fun im => im.id)).Nodup := by
    simp only [MovieRepository.deleteImage]
    exact hwf.imgNodup.sublist ((List.filter_sublist _).map _)
  cases hcovE : im.isCover with
  | false =>
      have hdb3 : deleteImageDb db mid imageId false = MovieRepository.deleteImage db imageId := by
        simp [deleteImageDb]
      rw [hdb3]
      intro mid' hne'
      by_cases hm : mid' = mid
      · subst hm
        have hcc : ((db.entryImages mid').filter (fun x => x.id != imageId)).filter
              (fun im => im.isCover)
            = (db.entryImages mid').filter (fun im => im.isCover) := by
          rw [filter_comm_pred]
          apply List.filter_eq_self.mpr
          intro x hx
          obtain ⟨hxe, hxc⟩ := List.mem_filter.mp hx
          have hxim : x ∈ db.images := (List.mem_filter.mp hxe).1
          have hxid : x.id ≠ imageId := by
            intro hc
            have hxeq := huniq x hxim hc
            rw [hxeq] at hxc
            rw [hcovE] at hxc
            exact Bool.false_ne_true hxc
          simp [hxid]
        have hold : db.entryImages mid' ≠ [] := by
          intro hcon
          rw [hE2mid, hcon] at hne'
          simp at hne'
        have h1 := hinv mid' hold
        simp only [Db.coverCount, coversOf, hE2mid, hcc] at *
        exact h1
      · have hEI := hE2ne mid' hm
        simp only [Db.coverCount, coversOf, hEI]
        exact hinv mid' (by rwa [hEI] at hne')
  | true =>
      simp only [deleteImageDb, if_pos]
      cases hfirst : MovieRepository.getFirstImage (MovieRepository.deleteImage db imageId) mid with
      | none =>
          dsimp only
          have hrem : (MovieRepository.deleteImage db imageId).entryImages mid = [] := by
            by_contra hcon
            have hs := minByCreatedAt_isSome hcon
            rw [MovieRepository.getFirstImage] at hfirst
            rw [hfirst] at hs
            simp at hs
          intro mid' hne'
          by_cases hm : mid' = mid
          · subst hm
            exact absurd hrem hne'
          · have hEI := hE2ne mid' hm
            simp only [Db.coverCount, coversOf, hEI]
            exact hinv mid' (by rwa [hEI] at hne')
      | some first =>
          dsimp only
          have hfmem : first ∈ (MovieRepository.deleteImage db imageId).entryImages mid :=
            minByCreatedAt_mem hfirst
          have hfmid : (first.movieId == mid) = true := by
            have := (List.mem_filter.mp hfmem).2
            exact this
          have hfimg : first ∈ (MovieRepository.deleteImage db imageId).images :=
            (List.mem_filter.mp hfmem).1
          intro mid' hne'
          by_cases hm : mid' = mid
          · subst hm
            -- the entry's images all get isCover := (id == first.id); exactly one matches
            have hEI3 : (MovieRepository.setCoverImage
                  (MovieRepository.deleteImage db imageId) mid' first.id).entryImages mid'
                = (((MovieRepository.deleteImage db imageId).entryImages mid').map
                    (fun im => if im.movieId == mid' then { im with isCover := false } else im)).map
                    (fun im => if im.id == first.id then { im with isCover := true } else im) := by
              simp only [MovieRepository.setCoverImage, Db.entryImages]
              rw [filter_movieId_map (setCover_movieId first.id),
                filter_movieId_map (clearAll_movieId mid')]
            simp only [Db.coverCount, coversOf, hEI3]
            rw [List.filter_map, List.filter_map]
            have hpred : ((MovieRepository.deleteImage db imageId).entryImages mid').filter
                (((fun im => im.isCover) ∘
                  (fun im => if im.id == first.id then { im with isCover := true } else im)) ∘
                  (fun im => if im.movieId == mid' then { im with isCover := false } else im))
                = ((MovieRepository.deleteImage db imageId).entryImages mid').filter
                    (fun x => x.id == first.id) := by
              apply List.filter_congr
              intro x hx
              have hxm : (x.movieId == mid') = true := (List.mem_filter.mp hx).2
              simp only [Function.comp, hxm, if_pos]
              by_cases hxid : x.id == first.id
              · simp [hxid]
              · simp [hxid]
            rw [hpred]
            simp only [List.length_map]
            have hndE : (((MovieRepository.deleteImage db imageId).entryImages mid').map
                (fun im => im.id)).Nodup :=
              hnd2.sublist ((List.filter_sublist _).map _)
            exact length_filter_id_one hndE hfmem
          · have hEI3 : (MovieRepository.setCoverImage
                  (MovieRepository.deleteImage db imageId) mid first.id).entryImages mid'
                = (MovieRepository.deleteImage db imageId).entryImages mid' := by
              simp only [MovieRepository.setCoverImage, Db.entryImages]
              rw [filter_movieId_map (setCover_movieId first.id),
                filter_movieId_map (clearAll_movieId mid)]
              have hpt : ∀ x ∈ (MovieRepository.deleteImage db imageId).images.filter
                  (fun im => im.movieId == mid'),
                  (x.movieId == mid) = false ∧ (x.id == first.id) = false := by
                intro x hxmem
                have hxm : (x.movieId == mid') = true := (List.mem_filter.mp hxmem).2
                have hximg : x ∈ (MovieRepository.deleteImage db imageId).images :=
                  (List.mem_filter.mp hxmem).1
                constructor
                · simp only [beq_iff_eq] at hxm ⊢
                  simp only [beq_eq_false_iff_ne, ne_eq]
                  rw [hxm]
                  exact hm
                · simp only [beq_eq_false_iff_ne, ne_eq]
                  intro hc
                  have hxeq : x = first :=
                    List.inj_on_of_nodup_map hnd2 hximg hfimg hc
                  rw [hxeq] at hxm
                  simp only [beq_iff_eq] at hxm hfmid
                  exact hm (by rw [← hxm, hfmid])
              have hinner : ((MovieRepository.deleteImage db imageId).images.filter
                    (fun im => im.movieId == mid')).map
                    (fun im => if im.movieId == mid then { im with isCover := false } else im)
                  = (MovieRepository.deleteImage db imageId).images.filter
                      (fun im => im.movieId == mid') :=
                (List.map_congr_left (fun x hx => by simp [(hpt x hx).1])).trans
                  (List.map_id _)
              rw [hinner]
              exact (List.map_congr_left (fun x hx => by simp [(hpt x hx).2])).trans
                (List.map_id _)
            have hE2 := hE2ne mid' hm
            simp only [Db.coverCount, coversOf, hEI3, hE2]
            exact hinv mid' (by rwa [hEI3, hE2] at hne')

lemma clearAll_id (mid : Nat) (x : Image) :
    ((if x.movieId == mid then { x with isCover := false } else x) : Image).id = x.id := by
  by_cases h : x.movieId == mid <;> simp [h]

lemma setCover_id (fid : Nat) (x : Image) :
    ((if x.id == fid then { x with isCover := true } else x) : Image).id = x.id := by
  by_cases h : x.id == fid <;> simp [h]

lemma dbWF_repoDeleteImage {db : Db} (imageId : Nat) (hwf : DbWF db) :
    DbWF (MovieRepository.deleteImage db imageId) := by
  constructor
  · intro im hm
    exact hwf.imgId im (List.mem_filter.mp hm).1
  · intro im hm
    exact hwf.imgMov im (List.mem_filter.mp hm).1
  · exact hwf.movId
  · exact hwf.imgNodup.sublist ((List.filter_sublist _).map _)

lemma dbWF_setCoverImage {db : Db} (mid fid : Nat) (hwf : DbWF db) :
    DbWF (MovieRepository.setCoverImage db mid fid) := by
  constructor
  · intro im hm
    simp only [MovieRepository.setCoverImage] at hm
    obtain ⟨y, hy, hyval⟩ := List.mem_map.mp hm
    obtain ⟨x, hx, hxval⟩ := List.mem_map.mp hy
    have h1 : im.id = x.id := by
      rw [← hyval, setCover_id, ← hxval, clearAll_id]
    rw [h1]
    exact hwf.imgId x hx
  · intro im hm
    simp only [MovieRepository.setCoverImage] at hm
    obtain ⟨y, hy, hyval⟩ := List.mem_map.mp hm
    obtain ⟨x, hx, hxval⟩ := List.mem_map.mp hy
    have h1 : im.movieId = x.movieId := by
      rw [← hyval, setCover_movieId, ← hxval, clearAll_movieId]
    rw [h1]
    exact hwf.imgMov x hx
  · exact hwf.movId
  · simp only [MovieRepository.setCoverImage]
    rw [map_preserving_ids (setCover_id fid), map_preserving_ids (clearAll_id mid)]
    exact hwf.imgNodup

lemma dbWF_deleteImageDb {db : Db} (mid imageId : Nat) (wc : Bool) (hwf : DbWF db) :
    DbWF (deleteImageDb db mid imageId wc) := by
  have h2 := dbWF_repoDeleteImage imageId hwf
  cases wc with
  | false => simpa [deleteImageDb] using h2
  | true =>
      simp only [deleteImageDb, if_pos]
      cases hf : MovieRepository.getFirstImage (MovieRepository.deleteImage db imageId) mid with
      | none => exact h2
      | some first => exact dbWF_setCoverImage mid first.id h2

/-! ## Step and run preservation -/

lemma step_preserves {st : St} {op : Op} (hwf : DbWF st.db) (hinv : CoverInv st.db)
    (hgood : goodOp st op) : DbWF (step st op).db ∧ CoverInv (step st op).db := by
  cases op with
  | create d rf =>
      rcases create_db_cases st d rf with h | h
      · simp only [step, h]
        exact ⟨hwf, hinv⟩
      · simp only [step, h]
        exact ⟨dbWF_createdDb d hwf, coverInv_createdDb hwf hinv hgood⟩
  | update id d =>
      rcases update_db_cases st id d with h | h
      · simp only [step, h]
        exact ⟨hwf, hinv⟩
      · simp only [step, h]
        exact ⟨dbWF_repoUpdate id d hwf,
          coverInv_of_images_eq (repoUpdate_images st.db id d) hinv⟩
  | addImages mid files sc =>
      rcases addImages_db_cases st mid files sc with h | ⟨hfound, hfne, h⟩
      · simp only [step, h]
        exact ⟨hwf, hinv⟩
      · simp only [step, h]
        have hmid : mid < st.db.nextMovieId := by
          obtain ⟨m, hm⟩ := Option.isSome_iff_exists.mp hfound
          have hm' : st.db.movies.find? (fun x => x.id == mid) = some m := hm
          have hmm : m ∈ st.db.movies := List.mem_of_find?_eq_some hm'
          have hmid' : m.id = mid := by simpa using List.find?_some hm'
          rw [← hmid']
          exact hwf.movId m hmm
        refine ⟨dbWF_repoAddImages _ hwf hmid, coverInv_repoAddImages hinv hfne ?_⟩
        intro hsc
        exact hgood hsc hfound hfne
  | deleteImage mid imageId =>
      rcases deleteImage_db_cases st mid imageId with h | ⟨im, hfind, h⟩
      · simp only [step, h]
        exact ⟨hwf, hinv⟩
      · simp only [step, h]
        exact ⟨dbWF_deleteImageDb mid imageId im.isCover hwf,
          coverInv_deleteImageDb hwf hinv hfind⟩
  | delete id =>
      rcases delete_db_cases st id with h | h
      · simp only [step, h]
        exact ⟨hwf, hinv⟩
      · simp only [step, h]
        exact ⟨dbWF_repoDelete id hwf, coverInv_repoDelete id hinv⟩

lemma run_preserves {st : St} {ops : List Op} (hwf : DbWF st.db) (hinv : CoverInv st.db)
    (hgood : GoodSeq st ops) : DbWF (run st ops).db ∧ CoverInv (run st ops).db := by
  induction ops generalizing st with
  | nil => exact ⟨hwf, hinv⟩
  | cons op ops ih =>
      cases hgood with
      | cons hop hrest =>
          have hstep := step_preserves hwf hinv hop
          simpa [run, List.foldl_cons] using ih hstep.1 hstep.2 hrest

lemma dbWF_empty : DbWF emptySt.db := by
  constructor
  · intro im hm
    simp [emptySt, emptyDb] at hm
  · intro im hm
    simp [emptySt, emptyDb] at hm
  · intro m hm
    simp [emptySt, emptyDb] at hm
  · simp [emptySt, emptyDb]

lemma coverInv_empty : CoverInv emptySt.db := by
  intro mid h
  simp [emptySt, emptyDb, Db.entryImages] at h

lemma deleteFiles_eq_filter : ∀ (ps : List String) (s : Storage),
    FileUtil.deleteFiles s ps = s.filter (fun p => !(ps.contains p)) := by
  intro ps
  induction ps with
  | nil =>
      intro s
      simp only [FileUtil.deleteFiles, List.foldl_nil]
      exact (List.filter_eq_self.mpr (by simp)).symm
  | cons q ps ih =>
      intro s
      simp only [FileUtil.deleteFiles, List.foldl_cons] at *
      rw [ih (FileUtil.deleteFile s q)]
      simp only [FileUtil.deleteFile]
      rw [List.filter_filter]
      apply List.filter_congr
      intro x _
      by_cases hq : x = q
      · subst hq
        simp
      · by_cases hp : ps.contains x
        · simp [hp, List.contains_cons, bne, hq, Ne.symm hq]
        · simp [hp, List.contains_cons, bne, hq, Ne.symm hq]

/-! ## Claim C1 -/

/-- C1 (counterexample): a single completed `create` with one received file
and `coverIndex = 1` leaves the new entry with one image and zero
cover-flagged images, so the invariant as claimed — for every choice of
`coverIndex` — fails. -/
theorem C1_counterexample :
    (run emptySt [Op.create createOutOfRange false]).db.entryImages 1 ≠ [] ∧
    (run emptySt [Op.create createOutOfRange false]).db.coverCount 1 = 0 := by
  constructor
  · decide
  · decide

/-- C1 (amended): after any completed sequence of create / update /
addImages / deleteImage / delete operations from a well-formed state
satisfying the invariant, every entry with at least one image has exactly
one cover-flagged image and every entry with no images has none — provided
each create's `coverIndex` designates one of its received files (vacuous
when it has no files) and `addImages` with `setCover = false` is only
applied (with files, to an existing entry) when the entry already has at
least one image. -/
theorem C1_cover_invariant (st : St) (ops : List Op)
    (hwf : DbWF st.db) (hinv : CoverInv st.db) (hgood : GoodSeq st ops) :
    ∀ mid : Nat,
      ((run st ops).db.entryImages mid ≠ [] → (run st ops).db.coverCount mid = 1) ∧
      ((run st ops).db.entryImages mid = [] → (run st ops).db.coverCount mid = 0) :=
  fun mid => ⟨(run_preserves hwf hinv hgood).2 mid, coverCount_of_no_images _ mid⟩

/-- C1 witness: the amended theorem applied to a concrete in-range create. -/
theorem C1_cover_invariant_witness :
    (run emptySt [Op.create createInRange false]).db.entryImages 1 ≠ [] ∧
    (run emptySt [Op.create createInRange false]).db.coverCount 1 = 1 := by
  have hgood : GoodSeq emptySt [Op.create createInRange false] :=
    GoodSeq.cons (Or.inr (by decide)) (GoodSeq.nil _)
  refine ⟨by decide, ?_⟩
  exact (C1_cover_invariant emptySt [Op.create createInRange false]
    dbWF_empty coverInv_empty hgood 1).1 (by decide)

/-! ## Claim C2 -/

/-- C2: for any create request (any number of received files) that passes
validation, if the repository's atomic multi-row insert fails then no
database row of the attempt is persisted (the database is exactly as
before), every file written to storage for the request has been deleted
(storage is exactly the old storage minus the request's file paths), and
the repository's error is re-raised to the caller. -/
theorem C2_atomic_create_cleanup (st : St) (d : CreateInput)
    (hty : validTypes.contains d.mtype = true)
    (hrat : ∀ r, d.rating = some r → 0 ≤ r ∧ r ≤ 10)
    (htags : ∀ ids, d.tagIds = some ids → ids.isEmpty = false →
      (TagRepository.findByIds st.db ids).length = ids.length) :
    (MovieService.create st d true).1 = .error .dbError ∧
    (MovieService.create st d true).2.db = st.db ∧
    (MovieService.create st d true).2.storage
      = st.storage.filter (fun p => !((d.files.map (fun f => f.path)).contains p)) ∧
    ∀ f ∈ d.files, f.path ∉ (MovieService.create st d true).2.storage := by
  have h2 : (match d.rating with
      | some r => decide (r < 0 ∨ 10 < r)
      | none => false) = false := by
    cases hr : d.rating with
    | none => rfl
    | some r =>
        have hb := hrat r hr
        simp only [decide_eq_false_iff_not, not_or, not_lt]
        exact ⟨hb.1, hb.2⟩
  have h3 : (match d.tagIds with
      | some ids => !ids.isEmpty
          && (TagRepository.findByIds st.db ids).length != ids.length
      | none => false) = false := by
    cases ht : d.tagIds with
    | none => rfl
    | some ids =>
        by_cases hie : ids.isEmpty
        · simp [hie]
        · have hlen := htags ids ht (by simpa using hie)
          simp [hlen]
  have hcreate : MovieService.create st d true
      = (if d.files.isEmpty then ((.error .dbError : Except ServiceError MovieDetail), st)
         else (.error .dbError,
           { st with
             storage := FileUtil.deleteFiles st.storage (d.files.map (fun f => f.path)) })) := by
    unfold MovieService.create
    rw [if_neg (by rw [hty]; simp), if_neg (by rw [h2]; simp), if_neg (by rw [h3]; simp)]
    simp [MovieRepository.create]
  by_cases hfe : d.files.isEmpty
  · have hfnil : d.files = [] := List.isEmpty_iff.mp hfe
    rw [hcreate, if_pos hfe]
    refine ⟨rfl, rfl, ?_, ?_⟩
    · rw [hfnil]
      exact (List.filter_eq_self.mpr (by simp)).symm
    · intro f hf
      rw [hfnil] at hf
      cases hf
  · rw [hcreate, if_neg hfe]
    refine ⟨rfl, rfl, deleteFiles_eq_filter _ _, ?_⟩
    intro f hf hmem
    rw [deleteFiles_eq_filter] at hmem
    have := (List.mem_filter.mp hmem).2
    simp only [Bool.not_eq_true'] at this
    rw [List.contains_eq_any_beq] at this
    simp only [List.any_eq_false] at this
    exact absurd (by simp) (this f.path (List.mem_map_of_mem _ hf))

/-- C2 witness: the theorem applied to a concrete request with one file;
the database is untouched and exactly the request's file is removed from
storage. -/
theorem C2_atomic_create_cleanup_witness :
    (MovieService.create
        { db := emptyDb, storage := ["uploads/movies/a.jpg", "uploads/movies/keep.jpg"] }
        createInRange true).1 = .error .dbError ∧
    (MovieService.create
        { db := emptyDb, storage := ["uploads/movies/a.jpg", "uploads/movies/keep.jpg"] }
        createInRange true).2.storage = ["uploads/movies/keep.jpg"] := by
  have h := C2_atomic_create_cleanup
    { db := emptyDb, storage := ["uploads/movies/a.jpg", "uploads/movies/keep.jpg"] }
    createInRange (by decide) (by intro r hr; cases hr) (by intro ids ht; cases ht)
  refine ⟨h.1, ?_⟩
  rw [h.2.2.1]
  decide

/-! ## Claim C3 -/

lemma findByIds_length_lt {db : Db} {ids : List Nat} {bad : Nat}
    (hnd : (db.tags.map (fun t => t.id)).Nodup)
    (hmem : bad ∈ ids) (hbad : ∀ t ∈ db.tags, t.id ≠ bad) :
    (TagRepository.findByIds db ids).length < ids.length := by
  have hndL : ((TagRepository.findByIds db ids).map (fun t => t.id)).Nodup :=
    hnd.sublist ((List.filter_sublist _).map _)
  have hsub : ∀ v ∈ (TagRepository.findByIds db ids).map (fun t => t.id),
      v ∈ ids.toFinset.erase bad := by
    intro v hv
    obtain ⟨t, htmem, htval⟩ := List.mem_map.mp hv
    have h1 : (ids.contains t.id) = true := (List.mem_filter.mp htmem).2
    have h2 : t ∈ db.tags := (List.mem_filter.mp htmem).1
    rw [Finset.mem_erase]
    refine ⟨by rw [← htval]; exact hbad t h2, ?_⟩
    rw [List.mem_toFinset, ← htval]
    simpa using h1
  have hcard : ((TagRepository.findByIds db ids).map (fun t => t.id)).toFinset.card
      ≤ (ids.toFinset.erase bad).card :=
    Finset.card_le_card (fun v hv => hsub v (List.mem_toFinset.mp hv))
  have hlen : ((TagRepository.findByIds db ids).map (fun t => t.id)).toFinset.card
      = (TagRepository.findByIds db ids).length := by
    rw [List.toFinset_card_of_nodup hndL, List.length_map]
  have herase : (ids.toFinset.erase bad).card = ids.toFinset.card - 1 :=
    Finset.card_erase_of_mem (List.mem_toFinset.mpr hmem)
  have hfin : ids.toFinset.card ≤ ids.length := ids.toFinset_card_le
  have hpos : 0 < ids.toFinset.card :=
    Finset.card_pos.mpr ⟨bad, List.mem_toFinset.mpr hmem⟩
  omega

/-- C3 (counterexample): `update` on a nonexistent entry whose `tagIds`
contains an unresolvable id (the tag table is empty) fails with
`NotFoundError`, not `ValidationError`, so the claim as universally stated
over all update calls fails. -/
theorem C3_counterexample :
    (MovieService.update emptySt 1 { UpdateInput.empty with tagIds := some [5] }).1
      = .error (.notFound "影片不存在") ∧
    errIsValidation
      (MovieService.update emptySt 1 { UpdateInput.empty with tagIds := some [5] }).1
      = false ∧
    emptySt.db.tags = [] := by
  refine ⟨rfl, rfl, rfl⟩

/-- C3 (amended): a create call whose `tagIds` contains an id that resolves
to no existing Tag fails with `ValidationError` and leaves the state (all
tables, and storage) unchanged; the same holds for an update call on an
existing entry; an update call on a nonexistent entry fails with
`NotFoundError`, also with zero writes.  (Tag ids are unique in the tag
table, per its primary key.) -/
theorem C3_tag_validation (st : St) (ids : List Nat) (bad : Nat)
    (hnd : (st.db.tags.map (fun t => t.id)).Nodup)
    (hmem : bad ∈ ids) (hbad : ∀ t ∈ st.db.tags, t.id ≠ bad) :
    (∀ (d : CreateInput) (rf : Bool), d.tagIds = some ids →
      errIsValidation (MovieService.create st d rf).1 = true ∧
      (MovieService.create st d rf).2 = st) ∧
    (∀ (id : Nat) (d : UpdateInput), d.tagIds = some ids →
      (Db.findMovie st.db id).isSome →
      errIsValidation (MovieService.update st id d).1 = true ∧
      (MovieService.update st id d).2 = st) ∧
    (∀ (id : Nat) (d : UpdateInput), Db.findMovie st.db id = none →
      (MovieService.update st id d).1 = .error (.notFound "影片不存在") ∧
      (MovieService.update st id d).2 = st) := by
  have hlt := findByIds_length_lt hnd hmem hbad
  have hne : ids.isEmpty = false := by
    cases ids with
    | nil => cases hmem
    | cons a as => rfl
  refine ⟨?_, ?_, ?_⟩
  · intro d rf htag
    unfold MovieService.create
    by_cases h1 : (!(validTypes.contains d.mtype)) = true
    · rw [if_pos h1]
      exact ⟨rfl, rfl⟩
    · rw [if_neg h1]
      by_cases h2 : (match d.rating with
          | some r => decide (r < 0 ∨ 10 < r)
          | none => false) = true
      · rw [if_pos h2]
        exact ⟨rfl, rfl⟩
      · rw [if_neg h2]
        have h3 : (match d.tagIds with
            | some ids2 => !ids2.isEmpty
                && (TagRepository.findByIds st.db ids2).length != ids2.length
            | none => false) = true := by
          simp only [htag, hne, Bool.not_false, Bool.true_and, bne_iff_ne, ne_eq]
          omega
        rw [if_pos h3]
        exact ⟨rfl, rfl⟩
  · intro id d htag hsome
    unfold MovieService.update
    cases hF : Db.findMovie st.db id with
    | none =>
        rw [hF] at hsome
        cases hsome
    | some m =>
        dsimp only
        by_cases h1 : (match d.mtype with
            | some t => !t.isEmpty && !(validTypes.contains t)
            | none => false) = true
        · rw [if_pos h1]
          exact ⟨rfl, rfl⟩
        · rw [if_neg h1]
          by_cases h2 : (match d.rating with
              | some r => decide (r < 0 ∨ 10 < r)
              | none => false) = true
          · rw [if_pos h2]
            exact ⟨rfl, rfl⟩
          · rw [if_neg h2]
            have h3 : (match d.tagIds with
                | some ids2 => !ids2.isEmpty
                    && (TagRepository.findByIds st.db ids2).length != ids2.length
                | none => false) = true := by
              simp only [htag, hne, Bool.not_false, Bool.true_and, bne_iff_ne, ne_eq]
              omega
            rw [if_pos h3]
            exact ⟨rfl, rfl⟩
  · intro id d hF
    unfold MovieService.update
    rw [hF]
    exact ⟨rfl, rfl⟩

/-- C3 witness: concrete instances of all three conclusions on the empty
state with the unresolvable tag id 5. -/
theorem C3_tag_validation_witness :
    errIsValidation
      (MovieService.create emptySt { createInRange with tagIds := some [5] } false).1
      = true ∧
    (MovieService.update emptySt 1 { UpdateInput.empty with tagIds := some [5] }).2
      = emptySt := by
  have h := C3_tag_validation emptySt [5] 5 (by simp [emptySt, emptyDb])
    (by simp) (by intro t ht; simp [emptySt, emptyDb] at ht)
  exact ⟨(h.1 _ false rfl).1, (h.2.2 1 _ (by decide)).2⟩

lemma filter_id_eq_singleton {l : List Image} (hnd : (l.map (fun im => im.id)).Nodup)
    {a : Image} (ha : a ∈ l) : l.filter (fun x => x.id == a.id) = [a] := by
  have hall : ∀ x ∈ l.filter (fun x => x.id == a.id), x = a := by
    intro x hx
    obtain ⟨hxl, hid⟩ := List.mem_filter.mp hx
    exact List.inj_on_of_nodup_map hnd hxl ha (by simpa using hid)
  have hlen := length_filter_id_one hnd ha
  cases hE : l.filter (fun x => x.id == a.id) with
  | nil =>
      rw [hE] at hlen
      simp at hlen
  | cons x xs =>
      cases xs with
      | nil =>
          have hx : x = a := hall x (by rw [hE]; exact List.mem_cons_self x [])
          rw [hx]
      | cons y ys =>
          rw [hE] at hlen
          simp at hlen

/-! ## Claim C4 -/

/-- C4: a valid update of an existing entry succeeds and (a) leaves the
image table untouched; (b) when `tagIds` is supplied (even `[]`) the entry's
tag links afterwards are exactly the new set while every other entry's links
are unchanged; (c) when `tagIds` is omitted the whole tag-link table is
unchanged; (d) each field of the entry is the supplied value when supplied
and the previous value when omitted. -/
theorem C4_update_semantics (st : St) (id : Nat) (d : UpdateInput) (m : Movie)
    (hF : Db.findMovie st.db id = some m)
    (hty : (match d.mtype with
        | some t => !t.isEmpty && !(validTypes.contains t)
        | none => false) = false)
    (hrat : (match d.rating with
        | some r => decide (r < 0 ∨ 10 < r)
        | none => false) = false)
    (htags : (match d.tagIds with
        | some ids => !ids.isEmpty
            && (TagRepository.findByIds st.db ids).length != ids.length
        | none => false) = false) :
    (MovieService.update st id d).1
      = .ok (formatMovieResponse (MovieRepository.update st.db id d)
          (applyUpdate m d st.db.now)) ∧
    (MovieService.update st id d).2.db = MovieRepository.update st.db id d ∧
    (MovieService.update st id d).2.db.images = st.db.images ∧
    Db.findMovie (MovieService.update st id d).2.db id
      = some (applyUpdate m d st.db.now) ∧
    (∀ tids, d.tagIds = some tids →
      (MovieService.update st id d).2.db.entryLinks id
        = tids.map (fun tid => { movieId := id, tagId := tid : MovieTag })) ∧
    (∀ tids, d.tagIds = some tids → ∀ oid, oid ≠ id →
      (MovieService.update st id d).2.db.entryLinks oid = st.db.entryLinks oid) ∧
    (d.tagIds = none →
      (MovieService.update st id d).2.db.movieTags = st.db.movieTags) ∧
    (d.title = none → (applyUpdate m d st.db.now).title = m.title) ∧
    (∀ v, d.title = some v → (applyUpdate m d st.db.now).title = v) ∧
    (d.mtype = none → (applyUpdate m d st.db.now).mtype = m.mtype) ∧
    (∀ v, d.mtype = some v → (applyUpdate m d st.db.now).mtype = v) ∧
    (d.rating = none → (applyUpdate m d st.db.now).rating = m.rating) ∧
    (∀ v, d.rating = some v → (applyUpdate m d st.db.now).rating = some v) ∧
    (d.releaseYear = none → (applyUpdate m d st.db.now).releaseYear = m.releaseYear) ∧
    (∀ v, d.releaseYear = some v → (applyUpdate m d st.db.now).releaseYear = some v) ∧
    (d.comment = none → (applyUpdate m d st.db.now).comment = m.comment) ∧
    (∀ v, d.comment = some v → (applyUpdate m d st.db.now).comment = some v) := by
  have hm_id : m.id = id := by
    have hF' : st.db.movies.find? (fun x => x.id == id) = some m := hF
    simpa using List.find?_some hF'
  have hupd : MovieService.update st id d
      = (.ok (formatMovieResponse (MovieRepository.update st.db id d)
            (applyUpdate m d st.db.now)),
         { st with db := MovieRepository.update st.db id d }) := by
    unfold MovieService.update
    rw [hF]
    dsimp only
    rw [if_neg (by rw [hty]; simp), if_neg (by rw [hrat]; simp),
      if_neg (by rw [htags]; simp)]
  refine ⟨by rw [hupd], by rw [hupd], ?_, ?_, ?_, ?_, ?_, ?_, ?_, ?_, ?_, ?_, ?_,
    ?_, ?_, ?_, ?_⟩
  · rw [hupd]
    exact repoUpdate_images st.db id d
  · rw [hupd]
    have hmovies : (MovieRepository.update st.db id d).movies
        = st.db.movies.map
            (fun mm => if mm.id == id then applyUpdate mm d st.db.now else mm) := by
      unfold MovieRepository.update
      cases d.tagIds <;> rfl
    show Db.findMovie (MovieRepository.update st.db id d) id = _
    rw [Db.findMovie, hmovies, List.find?_map]
    have hpred : ((fun x => x.id == id) ∘
        (fun mm => if mm.id == id then applyUpdate mm d st.db.now else mm))
        = fun mm => mm.id == id := by
      funext mm
      by_cases h : (mm.id == id) = true
      · simp only [Function.comp, h, if_pos]
        have : (applyUpdate mm d st.db.now).id = mm.id := rfl
        rw [this, h]
      · simp only [Function.comp, h, if_neg, Bool.false_eq_true, if_false]
    have hF' : st.db.movies.find? (fun x => x.id == id) = some m := hF
    rw [hpred, hF']
    simp only [Option.map_some']
    rw [if_pos (by simp [hm_id])]
  · intro tids htag
    rw [hupd]
    show (MovieRepository.update st.db id d).entryLinks id = _
    unfold MovieRepository.update
    rw [htag]
    simp only [Db.entryLinks, List.filter_append]
    have h1 : (st.db.movieTags.filter (fun l => l.movieId != id)).filter
        (fun l => l.movieId == id) = [] := by
      rw [List.filter_filter]
      apply List.filter_eq_nil_iff.mpr
      intro l _
      by_cases h : l.movieId = id <;> simp [h]
    have h2 : (tids.map (fun tid => { movieId := id, tagId := tid : MovieTag })).filter
        (fun l => l.movieId == id)
        = tids.map (fun tid => { movieId := id, tagId := tid : MovieTag }) := by
      apply List.filter_eq_self.mpr
      intro l hl
      obtain ⟨tid, _, hval⟩ := List.mem_map.mp hl
      rw [← hval]
      simp
    rw [h1, h2, List.nil_append]
  · intro tids htag oid hne
    rw [hupd]
    show (MovieRepository.update st.db id d).entryLinks oid = _
    unfold MovieRepository.update
    rw [htag]
    simp only [Db.entryLinks, List.filter_append]
    have h1 : (st.db.movieTags.filter (fun l => l.movieId != id)).filter
        (fun l => l.movieId == oid)
        = st.db.movieTags.filter (fun l => l.movieId == oid) := by
      rw [List.filter_filter]
      apply List.filter_congr
      intro l _
      by_cases h : l.movieId = oid
      · have hlne : l.movieId ≠ id := by
          rw [h]
          exact hne
        simp [h, hlne, hne]
      · simp [h]
    have h2 : (tids.map (fun tid => { movieId := id, tagId := tid : MovieTag })).filter
        (fun l => l.movieId == oid) = [] := by
      apply List.filter_eq_nil_iff.mpr
      intro l hl
      obtain ⟨tid, _, hval⟩ := List.mem_map.mp hl
      rw [← hval]
      simp only [beq_iff_eq]
      exact fun hcon => hne hcon.symm
    rw [h1, h2, List.append_nil]
  · intro htag
    rw [hupd]
    show (MovieRepository.update st.db id d).movieTags = _
    unfold MovieRepository.update
    rw [htag]
  · intro h
    simp [applyUpdate, h]
  · intro v h
    simp [applyUpdate, h]
  · intro h
    simp [applyUpdate, h]
  · intro v h
    simp [applyUpdate, h]
  · intro h
    simp [applyUpdate, h]
  · intro v h
    simp [applyUpdate, h]
  · intro h
    simp [applyUpdate, h]
  · intro v h
    simp [applyUpdate, h]
  · intro h
    simp [applyUpdate, h]
  · intro v h
    simp [applyUpdate, h]

/-- C4 witness: on a one-movie database with one tag link, an update that
sets the title and supplies `tagIds = []` removes every tag link of the
entry and stores the updated row. -/
theorem C4_update_semantics_witness :
    (MovieService.update { db := dbOneMovie, storage := [] } 1 updReplaceTags).2.db.entryLinks 1
      = [] ∧
    Db.findMovie (MovieService.update { db := dbOneMovie, storage := [] } 1 updReplaceTags).2.db 1
      = some (applyUpdate movieA updReplaceTags 1) := by
  have h := C4_update_semantics { db := dbOneMovie, storage := [] } 1 updReplaceTags movieA
    (by decide) (by decide) (by decide) (by decide)
  exact ⟨by simpa using h.2.2.2.2.1 [] rfl, h.2.2.2.1⟩

/-! ## Claim C5 -/

/-- C5: `deleteImage` fails with `NotFoundError` when no image both has the
given id and belongs to the given entry; when it succeeds and the deleted
image was the cover, if any image of the entry remains the repository's
chronologically-first remaining image (minimal `createdAt`) is promoted to
be the unique cover; and starting from a state satisfying the cover
invariant the entry is never left with images but no cover. -/
theorem C5_deleteImage (st : St) (mid imageId : Nat) (hwf : DbWF st.db) :
    ((∀ im ∈ st.db.images, ¬(im.id = imageId ∧ im.movieId = mid)) →
      MovieService.deleteImage st mid imageId
        = (.error (.notFound "图片不存在或不属于该影片"), st)) ∧
    (∀ im, MovieRepository.findImageById st.db imageId mid = some im →
      (MovieService.deleteImage st mid imageId).1 = .ok () ∧
      (im.isCover = true →
        (MovieRepository.deleteImage st.db imageId).entryImages mid ≠ [] →
        ∃ first,
          MovieRepository.getFirstImage (MovieRepository.deleteImage st.db imageId) mid
            = some first ∧
          first ∈ (MovieRepository.deleteImage st.db imageId).entryImages mid ∧
          (∀ j ∈ (MovieRepository.deleteImage st.db imageId).entryImages mid,
            first.createdAt ≤ j.createdAt) ∧
          coversOf ((MovieService.deleteImage st mid imageId).2.db.entryImages mid)
            = [{ first with isCover := true }]) ∧
      (CoverInv st.db →
        (MovieService.deleteImage st mid imageId).2.db.entryImages mid ≠ [] →
        (MovieService.deleteImage st mid imageId).2.db.coverCount mid = 1)) := by
  constructor
  · intro hnone
    have hfind : MovieRepository.findImageById st.db imageId mid = none := by
      apply List.find?_eq_none.mpr
      intro x hx
      simp only [Bool.and_eq_true, beq_iff_eq, not_and]
      intro h1
      exact fun h2 => hnone x hx ⟨h1, h2⟩
    unfold MovieService.deleteImage
    rw [hfind]
  · intro im hfind
    have hdb : (MovieService.deleteImage st mid imageId).2.db
        = deleteImageDb st.db mid imageId im.isCover := by
      unfold MovieService.deleteImage
      rw [hfind]
      rfl
    have hok : (MovieService.deleteImage st mid imageId).1 = .ok () := by
      unfold MovieService.deleteImage
      rw [hfind]
    have hnd2 : ((MovieRepository.deleteImage st.db imageId).images.map
        (fun im => im.id)).Nodup := by
      simp only [MovieRepository.deleteImage]
      exact hwf.imgNodup.sublist ((List.filter_sublist _).map _)
    refine ⟨hok, ?_, ?_⟩
    · intro hcov hrem
      obtain ⟨first, hfirst⟩ := Option.isSome_iff_exists.mp (minByCreatedAt_isSome hrem)
      have hfirst' : MovieRepository.getFirstImage
          (MovieRepository.deleteImage st.db imageId) mid = some first := hfirst
      have hfmem := minByCreatedAt_mem hfirst'
      have hfle := minByCreatedAt_le hfirst'
      refine ⟨first, hfirst', hfmem, hfle, ?_⟩
      have hdb3 : (MovieService.deleteImage st mid imageId).2.db
          = MovieRepository.setCoverImage (MovieRepository.deleteImage st.db imageId)
              mid first.id := by
        rw [hdb, hcov]
        simp only [deleteImageDb, if_pos]
        rw [hfirst']
      rw [hdb3]
      have hEI3 : (MovieRepository.setCoverImage
            (MovieRepository.deleteImage st.db imageId) mid first.id).entryImages mid
          = (((MovieRepository.deleteImage st.db imageId).entryImages mid).map
              (fun im => if im.movieId == mid then { im with isCover := false } else im)).map
              (fun im => if im.id == first.id then { im with isCover := true } else im) := by
        simp only [MovieRepository.setCoverImage, Db.entryImages]
        rw [filter_movieId_map (setCover_movieId first.id),
          filter_movieId_map (clearAll_movieId mid)]
      rw [coversOf, hEI3, List.filter_map, List.filter_map]
      have hpred : ((MovieRepository.deleteImage st.db imageId).entryImages mid).filter
          (((fun im => im.isCover) ∘
            (fun im => if im.id == first.id then { im with isCover := true } else im)) ∘
            (fun im => if im.movieId == mid then { im with isCover := false } else im))
          = ((MovieRepository.deleteImage st.db imageId).entryImages mid).filter
              (fun x => x.id == first.id) := by
        apply List.filter_congr
        intro x hx
        have hxm : (x.movieId == mid) = true := (List.mem_filter.mp hx).2
        simp only [Function.comp, hxm, if_pos]
        by_cases hxid : x.id == first.id
        · simp [hxid]
        · simp [hxid]
      rw [hpred]
      have hndE : (((MovieRepository.deleteImage st.db imageId).entryImages mid).map
          (fun im => im.id)).Nodup := hnd2.sublist ((List.filter_sublist _).map _)
      rw [filter_id_eq_singleton hndE hfmem]
      have hfm : (first.movieId == mid) = true := (List.mem_filter.mp hfmem).2
      have hfm2 : first.movieId = mid := by simpa using hfm
      simp [hfm, hfm2]
    · intro hinv hne
      rw [hdb] at hne ⊢
      exact coverInv_deleteImageDb hwf hinv hfind mid hne

/-- C5 witness: on the three-image entry, deleting the cover image promotes
the chronologically-first remaining image (id 2), and an unknown image id
is rejected with `NotFoundError`. -/
theorem C5_deleteImage_witness :
    (MovieService.deleteImage { db := dbWithImages, storage := [] } 1 1).1 = .ok () ∧
    coversOf ((MovieService.deleteImage { db := dbWithImages, storage := [] } 1 1).2.db.entryImages 1)
      = [{ imgOther with isCover := true }] ∧
    MovieService.deleteImage { db := dbWithImages, storage := [] } 1 99
      = (.error (.notFound "图片不存在或不属于该影片"), { db := dbWithImages, storage := [] }) := by
  have hwf : DbWF dbWithImages := by
    constructor <;> decide
  have h := C5_deleteImage { db := dbWithImages, storage := [] } 1 1 hwf
  have h99 := C5_deleteImage { db := dbWithImages, storage := [] } 1 99 hwf
  have hsucc := h.2 imgCover (by decide)
  refine ⟨hsucc.1, ?_, h99.1 (by decide)⟩
  obtain ⟨first, hfirst, -, -, hcovers⟩ := hsucc.2.1 (by decide) (by decide)
  have : first = imgOther := by
    have : MovieRepository.getFirstImage
        (MovieRepository.deleteImage dbWithImages 1) 1 = some imgOther := by decide
    rw [this] at hfirst
    exact (Option.some.injEq _ _ ▸ hfirst.symm :)
  rw [this] at hcovers
  exact hcovers

/-! ## Claim C6 -/

lemma ceil_div_nat (t n : Nat) (hn : 1 ≤ n) :
    Int.ceil ((t : Rat) / (n : Rat)) = (((t + n - 1) / n : Nat) : Int) := by
  have hn0 : (0 : Rat) < (n : Rat) := by
    exact_mod_cast Nat.lt_of_lt_of_le Nat.zero_lt_one hn
  set q := (t + n - 1) / n with hqdef
  have hle : q * n ≤ t + n - 1 := by
    rw [hqdef]
    exact Nat.div_mul_le_self _ _
  have hlt : t + n - 1 < q * n + n := by
    have h1 : q < q + 1 := Nat.lt_succ_self _
    have h2 := (Nat.div_lt_iff_lt_mul (by omega : 0 < n)).mp (hqdef ▸ h1)
    calc t + n - 1 < (q + 1) * n := h2
      _ = q * n + n := by ring
  rw [Int.ceil_eq_iff]
  constructor
  · rw [lt_div_iff₀ hn0]
    have hnat : q * n < t + n := by omega
    have hc : ((q * n : Nat) : Rat) < ((t + n : Nat) : Rat) := by
      exact_mod_cast hnat
    push_cast at hc ⊢
    linarith
  · rw [div_le_iff₀ hn0]
    have hnat : t ≤ q * n := by omega
    have hc : ((t : Nat) : Rat) ≤ ((q * n : Nat) : Rat) := by
      exact_mod_cast hnat
    push_cast at hc ⊢
    linarith

lemma ceil_div_int (t : Nat) (L : Int) (hL : 1 ≤ L) :
    Int.ceil ((t : Rat) / (L : Rat)) = (((t + L.toNat - 1) / L.toNat : Nat) : Int) := by
  have h1 : ((L.toNat : Nat) : Rat) = (L : Rat) := by
    have h2 := Int.toNat_of_nonneg (le_trans zero_le_one hL)
    exact_mod_cast congrArg (fun z : Int => (z : Rat)) h2
  rw [← h1]
  exact ceil_div_nat t L.toNat (by omega)

lemma findMany_pagination (st : St) (p : FindManyParams) :
    (MovieService.findMany st p).pagination
      = { page := jsOrInt p.page 1
          limit := min (jsOrInt p.limit 10) 100
          total := (st.db.movies.filter (matchesWhere st.db p)).length
          totalPages := Int.ceil
            (((st.db.movies.filter (matchesWhere st.db p)).length : Rat)
              / ((min (jsOrInt p.limit 10) 100 : Int) : Rat)) } := rfl

/-- C6: the effective page size defaults to 10 when `limit` is absent and is
clamped to 100 for any requested value above 100; the returned pagination
metadata satisfies `totalPages = ceil(total / limit)` (for any requested
positive limit); and in particular limit 10 with total 101 yields 11 total
pages. -/
theorem C6_pagination (st : St) (p : FindManyParams) (r : Int) (hr : p.limit = some r) :
    (MovieService.findMany st { p with limit := none }).pagination.limit = 10 ∧
    (100 < r → (MovieService.findMany st p).pagination.limit = 100) ∧
    (1 ≤ r → (MovieService.findMany st p).pagination.totalPages
        = (((MovieService.findMany st p).pagination.total
              + (MovieService.findMany st p).pagination.limit.toNat - 1)
            / (MovieService.findMany st p).pagination.limit.toNat : Nat)) ∧
    ((MovieService.findMany st p).pagination.limit = 10 →
      (MovieService.findMany st p).pagination.total = 101 →
      (MovieService.findMany st p).pagination.totalPages = 11) := by
  refine ⟨?_, ?_, ?_, ?_⟩
  · show min (jsOrInt none 10) 100 = 10
    decide
  · intro h100
    rw [findMany_pagination]
    show min (jsOrInt p.limit 10) 100 = 100
    rw [hr]
    simp only [jsOrInt, if_neg (by omega : ¬ r = 0)]
    omega
  · intro h1
    have hlim : jsOrInt p.limit 10 = r := by
      rw [hr]
      simp only [jsOrInt, if_neg (by omega : ¬ r = 0)]
    have hL : 1 ≤ min (jsOrInt p.limit 10) 100 := by
      rw [hlim]
      omega
    rw [findMany_pagination]
    show Int.ceil _ = _
    rw [ceil_div_int _ _ hL]
  · intro hlim htot
    rw [findMany_pagination] at hlim htot ⊢
    simp only at hlim htot
    show Int.ceil _ = _
    rw [hlim, htot]
    rw [ceil_div_int 101 10 (by norm_num)]
    norm_num

/-- C6 witness: on a 101-entry catalog, `limit = 10` yields total 101 and 11
total pages, and a requested limit of 500 is clamped to 100. -/
theorem C6_pagination_witness :
    (MovieService.findMany { db := db101, storage := [] } paramsLimit10).pagination.total
      = 101 ∧
    (MovieService.findMany { db := db101, storage := [] } paramsLimit10).pagination.totalPages
      = 11 ∧
    (MovieService.findMany { db := db101, storage := [] } paramsLimit500).pagination.limit
      = 100 := by
  have h := C6_pagination { db := db101, storage := [] } paramsLimit10 10 rfl
  have h500 := C6_pagination { db := db101, storage := [] } paramsLimit500 500 rfl
  have htot : (MovieService.findMany { db := db101, storage := [] }
      paramsLimit10).pagination.total = 101 := by decide
  exact ⟨htot, h.2.2.2 (by decide) htot, h500.2.1 (by norm_num)⟩

/-! ## Claims C7 and C8 -/

lemma bool_reorder (a s t : Bool) : ((a && s) && t) = (s && ((a && true) && t)) := by
  cases a <;> cases s <;> cases t <;> rfl

lemma bool_reorder2 (a t : Bool) : (a && t) = (t && (a && true)) := by
  cases a <;> cases t <;> rfl

/-- C7: with a (nonempty) keyword provided, the composed `where` predicate is
exactly the conjunction of the spec's keyword predicate — case-insensitive
substring match on title OR comment — with the remaining filters; every
entry in the filtered result matches the keyword predicate, and an entry
matching neither title nor comment is excluded. -/
theorem C7_keyword_or (st : St) (p : FindManyParams) (k : String)
    (hk : p.keyword = some k) (hne : k ≠ "") :
    (∀ m, matchesWhere st.db p m
        = (specKeywordMatch m k && matchesWhere st.db { p with keyword := none } m)) ∧
    (∀ m ∈ st.db.movies.filter (matchesWhere st.db p), specKeywordMatch m k = true) ∧
    (∀ m ∈ st.db.movies, specKeywordMatch m k = false →
      m ∉ st.db.movies.filter (matchesWhere st.db p)) := by
  have hie : k.isEmpty = false := by
    rw [Bool.eq_false_iff]
    intro hc
    exact hne ((String.isEmpty_iff k).mp hc)
  have hmain : ∀ m, matchesWhere st.db p m
      = (specKeywordMatch m k && matchesWhere st.db { p with keyword := none } m) := by
    intro m
    simp only [matchesWhere, specKeywordMatch, hk, hie, Bool.false_eq_true, if_false]
    exact bool_reorder _ _ _
  refine ⟨hmain, ?_, ?_⟩
  · intro m hm
    have h1 := (List.mem_filter.mp hm).2
    rw [hmain m] at h1
    exact Bool.and_elim_left h1
  · intro m _ hfalse hc
    have h1 := (List.mem_filter.mp hc).2
    rw [hmain m, hfalse] at h1
    simp at h1

/-- C7 witness: with keyword "incep", the entry matching only in its comment
is counted, and the entry matching neither title nor comment is excluded. -/
theorem C7_keyword_or_witness :
    (MovieService.findMany { db := dbKeyword, storage := [] } paramsKw).pagination.total = 2 ∧
    specKeywordMatch movieCommentHit "incep" = true ∧
    movieMiss ∉ dbKeyword.movies.filter (matchesWhere dbKeyword paramsKw) := by
  have h := C7_keyword_or { db := dbKeyword, storage := [] } paramsKw "incep" rfl
    (by decide)
  exact ⟨by decide, by decide, h.2.2 movieMiss (by decide) (by decide)⟩

/-- C8: with a (nonempty) tagIds filter, the composed `where` predicate is
exactly the conjunction of the spec's "any of" tag predicate — the entry is
linked to at least one of the given tags — with the remaining filters, and
every entry in the filtered result is linked to at least one of the tags. -/
theorem C8_tagfilter_any (st : St) (p : FindManyParams) (ids : List Nat)
    (hp : p.tagIds = some ids) (hne : ids ≠ []) :
    (∀ m, matchesWhere st.db p m
        = (specTagMatch st.db ids m && matchesWhere st.db { p with tagIds := none } m)) ∧
    (∀ m ∈ st.db.movies.filter (matchesWhere st.db p),
      specTagMatch st.db ids m = true) := by
  have hie : ids.isEmpty = false := by
    cases ids with
    | nil => exact absurd rfl hne
    | cons a as => rfl
  have hmain : ∀ m, matchesWhere st.db p m
      = (specTagMatch st.db ids m && matchesWhere st.db { p with tagIds := none } m) := by
    intro m
    simp only [matchesWhere, specTagMatch, hp, hie, Bool.false_eq_true, if_false]
    exact bool_reorder2 _ _
  refine ⟨hmain, ?_⟩
  intro m hm
  have h1 := (List.mem_filter.mp hm).2
  rw [hmain m] at h1
  exact Bool.and_elim_left h1

/-- C8 witness: with `tagIds = [1, 2]`, the entry tagged only with 1 is in
the result (count 1), and the theorem certifies it matches the "any of"
predicate. -/
theorem C8_tagfilter_any_witness :
    (MovieService.findMany { db := dbTags, storage := [] } paramsTagsAB).pagination.total = 1 ∧
    specTagMatch dbTags [1, 2] movieA = true := by
  have h := C8_tagfilter_any { db := dbTags, storage := [] } paramsTagsAB [1, 2] rfl
    (by decide)
  exact ⟨by decide, h.2 movieA (by decide)⟩

/-! ## Claim C9 -/

/-- C9: `findById` fails with `NotFoundError` when no entry with the id
exists; otherwise it returns the detail projection whose image list is the
stable cover-first partition of all of the entry's images (a permutation of
the full gallery; under the cover invariant the unique cover comes first and
everything after it is non-cover; the non-cover part keeps creation order)
together with all resolved tags. -/
theorem C9_findById (st : St) (id : Nat) :
    (Db.findMovie st.db id = none →
      MovieService.findById st id = .error (.notFound "影片不存在")) ∧
    (∀ m, Db.findMovie st.db id = some m →
      MovieService.findById st id = .ok (formatMovieResponseCoverFirst st.db m) ∧
      (formatMovieResponseCoverFirst st.db m).images
        = (coversOf (st.db.entryImages m.id)
            ++ (st.db.entryImages m.id).filter (fun im => !im.isCover)).map
            (fun im => { id := im.id, path := im.path, isCover := im.isCover }) ∧
      List.Perm ((formatMovieResponseCoverFirst st.db m).images)
        ((st.db.entryImages m.id).map
          (fun im => { id := im.id, path := im.path, isCover := im.isCover : ImageOut })) ∧
      (formatMovieResponseCoverFirst st.db m).tags = resolvedTags st.db m.id ∧
      (CoverInv st.db → st.db.entryImages m.id ≠ [] →
        ∃ c rest, (formatMovieResponseCoverFirst st.db m).images = c :: rest ∧
          c.isCover = true ∧ ∀ x ∈ rest, x.isCover = false) ∧
      (st.db.images.Pairwise (fun a b => a.createdAt ≤ b.createdAt) →
        ((st.db.entryImages m.id).filter (fun im => !im.isCover)).Pairwise
          (fun a b => a.createdAt ≤ b.createdAt))) := by
  constructor
  · intro hF
    unfold MovieService.findById
    rw [hF]
  · intro m hF
    have hok : MovieService.findById st id = .ok (formatMovieResponseCoverFirst st.db m) := by
      unfold MovieService.findById
      rw [hF]
    refine ⟨hok, rfl, ?_, rfl, ?_, ?_⟩
    · exact List.Perm.map _ (List.filter_append_perm _ _)
    · intro hinv hne
      have hcc := hinv m.id hne
      rw [Db.coverCount] at hcc
      obtain ⟨c0, hc0⟩ := List.length_eq_one.mp hcc
      refine ⟨{ id := c0.id, path := c0.path, isCover := c0.isCover },
        ((st.db.entryImages m.id).filter (fun im => !im.isCover)).map
          (fun im => { id := im.id, path := im.path, isCover := im.isCover }), ?_, ?_, ?_⟩
      · show (detailImagesCoverFirst st.db m.id) = _
        rw [detailImagesCoverFirst, hc0]
        rfl
      · have hmem : c0 ∈ coversOf (st.db.entryImages m.id) := by
          rw [hc0]
          exact List.mem_cons_self c0 []
        have := (List.mem_filter.mp hmem).2
        simpa using this
      · intro x hx
        obtain ⟨im, hmem, hval⟩ := List.mem_map.mp hx
        have h2 := (List.mem_filter.mp hmem).2
        rw [← hval]
        simpa using h2
    · intro hsort
      apply List.Pairwise.sublist ?_ hsort
      exact (List.filter_sublist _).trans (List.filter_sublist _)

/-- C9 witness: on the three-image entry the detail projection lists the
cover first, then the two non-cover images in creation order; a missing id
yields `NotFoundError`. -/
theorem C9_findById_witness :
    MovieService.findById { db := dbWithImages, storage := [] } 1
      = .ok (formatMovieResponseCoverFirst dbWithImages movieA) ∧
    (formatMovieResponseCoverFirst dbWithImages movieA).images
      = [{ id := 1, path := "movies/a.jpg", isCover := true },
         { id := 2, path := "movies/b.jpg", isCover := false },
         { id := 3, path := "movies/c.jpg", isCover := false }] ∧
    MovieService.findById { db := dbWithImages, storage := [] } 99
      = .error (.notFound "影片不存在") := by
  have h := C9_findById { db := dbWithImages, storage := [] } 1
  have h99 := C9_findById { db := dbWithImages, storage := [] } 99
  exact ⟨(h.2 movieA (by decide)).1, by decide, h99.1 (by decide)⟩

/-! ## Claim C10 -/

/-- C10: a provided empty-string keyword imposes no keyword constraint, a
provided page of 0 falls back to the default page 1, and a provided limit of
0 falls back to the default limit 10 — in each case `findMany` returns
exactly the result of the call with the parameter absent. -/
theorem C10_falsy_params (st : St) (p : FindManyParams) :
    (p.keyword = some "" →
      MovieService.findMany st p = MovieService.findMany st { p with keyword := none }) ∧
    (p.page = some 0 →
      MovieService.findMany st p = MovieService.findMany st { p with page := none }) ∧
    (p.limit = some 0 →
      MovieService.findMany st p = MovieService.findMany st { p with limit := none }) := by
  refine ⟨?_, ?_, ?_⟩
  · intro hk
    have hmw : matchesWhere st.db p = matchesWhere st.db { p with keyword := none } := by
      funext m
      unfold matchesWhere
      rw [hk]
      dsimp only
      rw [if_pos ((String.isEmpty_iff "").mpr rfl)]
    unfold MovieService.findMany
    rw [hmw]
  · intro hp
    unfold MovieService.findMany
    rw [hp]
    rfl
  · intro hl
    unfold MovieService.findMany
    rw [hl]
    rfl

/-- C10 witness: on a concrete catalog, findMany with keyword "", page 0 and
limit 0 respectively returns exactly the same result as with the parameter
omitted. -/
theorem C10_falsy_params_witness :
    (MovieService.findMany { db := dbKeyword, storage := [] }
        { FindManyParams.empty with keyword := some "" }
      = MovieService.findMany { db := dbKeyword, storage := [] } FindManyParams.empty) ∧
    (MovieService.findMany { db := dbKeyword, storage := [] }
        { FindManyParams.empty with page := some 0 }
      = MovieService.findMany { db := dbKeyword, storage := [] } FindManyParams.empty) ∧
    (MovieService.findMany { db := dbKeyword, storage := [] }
        { FindManyParams.empty with limit := some 0 }
      = MovieService.findMany { db := dbKeyword, storage := [] } FindManyParams.empty) :=
  ⟨(C10_falsy_params { db := dbKeyword, storage := [] }
      { FindManyParams.empty with keyword := some "" }).1 rfl,
   (C10_falsy_params { db := dbKeyword, storage := [] }
      { FindManyParams.empty with page := some 0 }).2.1 rfl,
   (C10_falsy_params { db := dbKeyword, storage := [] }
      { FindManyParams.empty with limit := some 0 }).2.2 rfl⟩

end CatalogSpec
